import Mathlib

/-!
Shallow embedding of the covenant construction and signing pipeline of the
cashSC repository (src/src/serialize.rs, script.rs, tx.rs, unsigned_tx.rs,
outputs.rs, advanced_trade_offer.rs, p2_ascending_nonce.rs), together with
proofs settling the frozen claims about it.

Modelling conventions:
* Bytes are `Nat` values (< 256 for everything the encoders emit); byte
  strings are `List Nat`.
* Rust machine integers are embedded as `Nat`/`Int` with explicit `% 2 ^ w`
  at the points where the Rust code can wrap.  Integer overflow follows the
  release-build (two's-complement wrapping) semantics of the crate: `abs`,
  casts, `+`, `*`, `-` and shifts wrap, shifts mask their amount mod the bit
  width.
* Rust panics (`unwrap`, `expect`, `panic!`, out-of-bounds indexing and
  slicing, `Vec::remove`/`insert` out of range) are modelled by `Option`:
  a function that can panic returns `none` exactly on the panicking inputs.
-/

namespace CashSC

/-- Reinterpret the low 32 bits of a natural number as a two's-complement
signed 32-bit value (the `as i32` cast of Rust on `u32`/`u64`). -/
def toSigned32 (n : Nat) : Int :=
  if n % 2 ^ 32 < 2 ^ 31 then ((n % 2 ^ 32 : Nat) : Int)
  else ((n % 2 ^ 32 : Nat) : Int) - 2 ^ 32

/-- `width` little-endian base-256 digits of `n` (low byte first). -/
def leBytes : Nat → Nat → List Nat
  | 0, _ => []
  | w + 1, n => n % 256 :: leBytes w (n / 256)

/-- `write_u16::<LittleEndian>` on the low 16 bits. -/
def u16LE (n : Nat) : List Nat := leBytes 2 (n % 2 ^ 16)

/-- `write_u32::<LittleEndian>` on the low 32 bits. -/
def u32LE (n : Nat) : List Nat := leBytes 4 (n % 2 ^ 32)

/-- `write_u64::<LittleEndian>` on the low 64 bits. -/
def u64LE (n : Nat) : List Nat := leBytes 8 (n % 2 ^ 64)

/-- `write_u32::<BigEndian>` on the low 32 bits. -/
def u32BE (n : Nat) : List Nat := (leBytes 4 (n % 2 ^ 32)).reverse

/-- `write_u64::<BigEndian>` on the low 64 bits. -/
def u64BE (n : Nat) : List Nat := (leBytes 8 (n % 2 ^ 64)).reverse

/-- `write_i32::<LittleEndian>`: the four little-endian bytes of the
two's-complement representation. -/
def i32LE (i : Int) : List Nat := leBytes 4 (i % 2 ^ 32).toNat

/-- `serialize.rs: write_var_int` / `var_int_to_vec`: Bitcoin compact-size
encoding. -/
def writeVarInt (n : Nat) : List Nat :=
  if n ≤ 0xfc then [n]
  else if n ≤ 0xffff then 0xfd :: u16LE n
  else if n ≤ 0xffffffff then 0xfe :: u32LE n
  else 0xff :: u64LE n

/-- The scan loop of `serialize.rs: encode_minimally`, walking the bytes
before the final byte from the most significant end (`rpre` is that prefix
reversed), carrying the original final byte `last`.  It finds the highest
nonzero byte; if its sign bit is set the final byte is kept as one extra
byte, otherwise the final byte is ORed into it; if all bytes are zero the
result is empty. -/
def encodeMinimallyCore : List Nat → Nat → List Nat
  | [], _ => []
  | b :: rpre, last =>
    if b ≠ 0 then
      if b &&& 0x80 ≠ 0 then (b :: rpre).reverse ++ [last]
      else rpre.reverse ++ [b ||| last]
    else encodeMinimallyCore rpre last

/-- `serialize.rs: encode_minimally` (operating on a copy instead of in
place). -/
def encodeMinimally (vec : List Nat) : List Nat :=
  match vec.getLast? with
  | none => vec
  | some last =>
    if last &&& 0x7f ≠ 0 then vec
    else if vec.length = 1 then []
    else if vec.getD (vec.length - 2) 0 &&& 0x80 ≠ 0 then vec
    else encodeMinimallyCore vec.dropLast.reverse last

/-- `serialize.rs: encode_int`: minimal script-number encoding of an `i32`.
`int.abs()` wraps at `i32::MIN` in release builds, and the little-endian
bytes of the wrapped absolute value are exactly `leBytes 4 (natAbs % 2^32)`. -/
def encodeInt (i : Int) : List Nat :=
  encodeMinimally (leBytes 4 (i.natAbs % 2 ^ 32) ++ if i < 0 then [0x80] else [])

/-- `serialize.rs: encode_int_n`: fixed-width form; four little-endian
magnitude bytes, zero padding up to `nBytes - 1`, then a sign byte.
(For `nBytes ≤ 4` the padding range `4..nBytes-1` is empty and the result
still has five bytes.) -/
def encodeIntN (i : Int) (nBytes : Nat) : List Nat :=
  leBytes 4 (i.natAbs % 2 ^ 32)
    ++ List.replicate (nBytes - 1 - 4) 0
    ++ [if i < 0 then 0x80 else 0]

/-- `serialize.rs: encode_bool`. -/
def encodeBool (b : Bool) : List Nat := if b then [0x01] else []

/-- The loop of `serialize.rs: vec_to_int`.  The accumulator is the 32-bit
two's-complement bit pattern of the running `int` (additions and the final
`*= -1` wrap mod `2 ^ 32`, shifts mask their amount mod 32, as in a release
build). -/
def vecToIntCore : List Nat → Nat → Nat → Nat → Nat
  | [], _, _, acc => acc
  | [value], signBit, shift, acc =>
    if signBit ≠ 0 then
      (2 ^ 32 - (acc + (value ^^^ signBit) <<< (shift % 32)) % 2 ^ 32) % 2 ^ 32
    else (acc + value <<< (shift % 32)) % 2 ^ 32
  | value :: rest, signBit, shift, acc =>
    vecToIntCore rest signBit (shift + 8) ((acc + value <<< (shift % 32)) % 2 ^ 32)

/-- `serialize.rs: vec_to_int`: little-endian magnitude with the top bit of
the last byte as sign. -/
def vecToInt (vec : List Nat) : Int :=
  match vec.getLast? with
  | none => 0
  | some last => toSigned32 (vecToIntCore vec (last &&& 0x80) 0 0)

/-- `script.rs: Op`: a push of a byte string or an opcode.  The `Code`
variant carries the `u8` discriminant of the `OpCodeType` enum variant. -/
inductive Op where
  | Push (v : List Nat)
  | Code (c : Nat)
  deriving DecidableEq, Repr

/-- The discriminants of the closed `script.rs: OpCodeType` enumeration:
`Op0 = 0x00`, the contiguous block `OpPushData1 = 0x4c` through
`OpCheckDataSigVerify = 0xbb`, `FirstUndefinedOpCode` (implicitly `0xbc`),
the multi-byte markers `OpPrefixBegin = 0xf0` and `OpPrefixEnd = 0xf7`, and
the template-matching params `0xfa`, `0xfb`, `0xfd`, `0xfe`,
`OpInvalidOpcode = 0xff`. -/
def isDefinedOpCode (b : Nat) : Bool :=
  b = 0x00 ∨ (0x4c ≤ b ∧ b ≤ 0xbc) ∨
    b = 0xf0 ∨ b = 0xf7 ∨ b = 0xfa ∨ b = 0xfb ∨ b = 0xfd ∨ b = 0xfe ∨ b = 0xff

/-- `num::FromPrimitive::from_u8(code).unwrap_or(OpCodeType::OpInvalidOpcode)`
in `Script::from_serialized`: bytes outside the enumeration decode to
`OpInvalidOpcode = 0xff`. -/
def opFromU8 (b : Nat) : Nat :=
  if isDefinedOpCode b then b else 0xff

/-- Named opcode discriminants used in this development (a subset of the
`OpCodeType` enum). -/
def opIf : Nat := 0x63
def opElse : Nat := 0x67
def opEndIf : Nat := 0x68
def opVerify : Nat := 0x69
def opReturnCode : Nat := 0x6a
def opToAltStack : Nat := 0x6b
def opFromAltStack : Nat := 0x6c
def op2Drop : Nat := 0x6d
def op2Dup : Nat := 0x6e
def op2Swap : Nat := 0x72
def opDrop : Nat := 0x75
def opDup : Nat := 0x76
def opNip : Nat := 0x77
def opOver : Nat := 0x78
def opPick : Nat := 0x79
def opRoll : Nat := 0x7a
def opRot : Nat := 0x7b
def opSwap : Nat := 0x7c
def opTuck : Nat := 0x7d
def opCat : Nat := 0x7e
def opSplitCode : Nat := 0x7f
def opNum2Bin : Nat := 0x80
def opBin2Num : Nat := 0x81
def opSize : Nat := 0x82
def opEqual : Nat := 0x87
def opEqualVerify : Nat := 0x88
def op0NotEqual : Nat := 0x92
def opSub : Nat := 0x94
def opDiv : Nat := 0x96
def opMod : Nat := 0x97
def opNumEqualVerify : Nat := 0x9d
def opLessThan : Nat := 0x9f
def opGreaterThan : Nat := 0xa0
def opLessThanOrEqual : Nat := 0xa1
def opGreaterThanOrEqual : Nat := 0xa2
def opMax : Nat := 0xa4
def opSha256 : Nat := 0xa8
def opHash160 : Nat := 0xa9
def opHash256 : Nat := 0xaa
def opCodeSeparator : Nat := 0xab
def opCheckSig : Nat := 0xac
def opCheckSigVerify : Nat := 0xad
def opCheckDataSigVerify : Nat := 0xbb

/-- `script.rs: Op::code`: the opcode byte that starts the serialization of
an op.  `none` models the `unimplemented!()` panic for pushes longer than
`u32::MAX` bytes. -/
def Op.codeByte : Op → Option Nat
  | .Push v =>
    if v.length ≤ 0x4b then some v.length
    else if v.length ≤ 0xff then some 0x4c
    else if v.length ≤ 0xffff then some 0x4d
    else if v.length ≤ 0xffffffff then some 0x4e
    else none
  | .Code c => some c

/-- `script.rs: Op::write_to_stream`. -/
def Op.writeToStream (op : Op) (isMinimalPush : Bool) : Option (List Nat) :=
  match op with
  | .Code c => some [c]
  | .Push v =>
    if v = [] ∧ isMinimalPush = false then some [0x4c, 0x00]
    else if v.length = 1 ∧ isMinimalPush = true ∧ 0 < v.headD 0 ∧ v.headD 0 ≤ 16 then
      some [v.headD 0 + 0x50]
    else
      (Op.codeByte (.Push v)).map (fun c =>
        c :: (if v.length ≤ 0x4b then []
              else if v.length ≤ 0xff then [v.length]
              else if v.length ≤ 0xffff then u16LE v.length
              else if v.length ≤ 0xffffffff then u32LE v.length
              else []) ++ v)

/-- `script.rs: Script`: ops plus the cached wire bytes (when parsed) and
the minimal-push / slp-safe flags. -/
structure Script where
  ops : List Op
  serialized : Option (List Nat)
  is_minimal_push : Bool
  is_slp_safe : Bool
  deriving DecidableEq, Repr

/-- `Script::new`. -/
def Script.new (ops : List Op) : Script :=
  ⟨ops, none, true, false⟩

/-- `Script::new_non_minimal_push`. -/
def Script.newNonMinimalPush (ops : List Op) : Script :=
  ⟨ops, none, false, false⟩

/-- The loop of `script.rs: Script::from_serialized`; `data` is the part of
the input from the cursor position `idx` on, `slp` the running slp-safe
flag, `fuel` a step bound (each iteration consumes at least one byte, so
the original length suffices).  NOTE (faithful to the source): in the
PUSHDATA1/2/4 arms the payload is taken as `data[offset..offset+n]` with
`offset` still pointing AT the length field, so the pushed bytes start with
the length field itself, and the bounds check is `offset + n > data.len()`. -/
def fromSerializedCore : Nat → List Nat → Nat → Bool → Option (List Op × Bool)
  | _, [], _, slp => some ([], slp)
  | 0, _ :: _, _, _ => none
  | fuel + 1, b :: rest, idx, slp =>
    if b = 0 then
      (fromSerializedCore fuel rest (idx + 1) false).map
        (fun r => (Op.Push [] :: r.1, r.2))
    else if b ≤ 0x4b then
      if rest.length < b then none
      else
        (fromSerializedCore fuel (rest.drop b) (idx + 1 + b) slp).map
          (fun r => (Op.Push (rest.take b) :: r.1, r.2))
    else if b = 0x4c then
      match rest with
      | [] => none
      | n :: _ =>
        if rest.length < n then none
        else
          (fromSerializedCore fuel (rest.drop (1 + n)) (idx + 2 + n) slp).map
            (fun r => (Op.Push (rest.take n) :: r.1, r.2))
    else if b = 0x4d then
      match rest with
      | n0 :: n1 :: _ =>
        let n := n0 + 256 * n1
        if rest.length < n then none
        else
          (fromSerializedCore fuel (rest.drop (2 + n)) (idx + 3 + n) slp).map
            (fun r => (Op.Push (rest.take n) :: r.1, r.2))
      | _ => none
    else if b = 0x4e then
      match rest with
      | n0 :: n1 :: n2 :: n3 :: _ =>
        let n := n0 + 256 * n1 + 65536 * n2 + 16777216 * n3
        if rest.length < n then none
        else
          (fromSerializedCore fuel (rest.drop (4 + n)) (idx + 5 + n) slp).map
            (fun r => (Op.Push (rest.take n) :: r.1, r.2))
      | _ => none
    else
      let c := opFromU8 b
      let slp' := if idx ≠ 0 ∧ c ≠ opReturnCode then false else slp
      (fromSerializedCore fuel rest (idx + 1) slp').map
        (fun r => (Op.Code c :: r.1, r.2))

/-- `script.rs: Script::from_serialized`. -/
def Script.fromSerialized (data : List Nat) : Option Script :=
  (fromSerializedCore data.length data 0 true).map
    (fun r => ⟨r.1, some data, true, r.2⟩)

/-- `script.rs: Script::to_vec`: the cached wire bytes when the script was
parsed, otherwise the concatenated serializations of the ops. -/
def Script.toVec (s : Script) : Option (List Nat) :=
  match s.serialized with
  | some vec => some vec
  | none =>
    (s.ops.mapM (fun (op : Op) => op.writeToStream s.is_minimal_push)).map List.flatten

/-- `iter().rposition(pred)`: the index of the last element satisfying the
predicate. -/
def lastSepIdx (ops : List Op) : Option Nat :=
  (ops.reverse.findIdx? (fun op => op = Op.Code opCodeSeparator)).map
    (fun r => ops.length - 1 - r)

/-- `script.rs: Script::to_vec_sig`: serialize the ops, skipping every op at
an index `≤` the rightmost `OP_CODESEPARATOR` position (i.e. serialize
`ops.drop (pos + 1)`). -/
def Script.toVecSig (s : Script) : Option (List Nat) :=
  let kept := match lastSepIdx s.ops with
    | none => s.ops
    | some pos => s.ops.drop (pos + 1)
  (kept.mapM (fun (op : Op) => op.writeToStream s.is_minimal_push)).map List.flatten

/-- `tx.rs: TxOutpoint`. -/
structure TxOutpoint where
  tx_hash : List Nat
  vout : Nat
  deriving DecidableEq, Repr

/-- `tx.rs: TxInput`. -/
structure TxInput where
  outpoint : TxOutpoint
  script : Script
  sequence : Nat
  deriving DecidableEq, Repr

/-- `tx.rs: TxOutput`. -/
structure TxOutput where
  value : Nat
  script : Script
  deriving DecidableEq, Repr

/-- `tx.rs: Tx`. -/
structure Tx where
  version : Int
  inputs : List TxInput
  outputs : List TxOutput
  lock_time : Nat
  deriving DecidableEq, Repr

/-- `tx.rs: TxInput::write_to_stream`. -/
def TxInput.writeToStream (inp : TxInput) : Option (List Nat) :=
  (inp.script.toVec).map (fun sc =>
    inp.outpoint.tx_hash ++ u32LE inp.outpoint.vout
      ++ writeVarInt sc.length ++ sc ++ u32LE inp.sequence)

/-- `tx.rs: TxOutput::write_to_stream`. -/
def TxOutput.writeToStream (out : TxOutput) : Option (List Nat) :=
  (out.script.toVec).map (fun sc =>
    u64LE out.value ++ writeVarInt sc.length ++ sc)

/-- `tx.rs: Tx::write_to_stream`. -/
def Tx.writeToStream (tx : Tx) : Option (List Nat) :=
  match tx.inputs.mapM TxInput.writeToStream,
      tx.outputs.mapM TxOutput.writeToStream with
  | some ins, some outs =>
    some (i32LE tx.version ++ writeVarInt tx.inputs.length ++ ins.flatten
      ++ writeVarInt tx.outputs.length ++ outs.flatten ++ u32LE tx.lock_time)
  | _, _ => none

/-- `unsigned_tx.rs: PreImage` (BIP-143-style sighash pre-image). -/
structure PreImage where
  version : Int
  hash_prevouts : List Nat
  hash_sequence : List Nat
  outpoint : TxOutpoint
  script_code : Script
  value : Nat
  sequence : Nat
  hash_outputs : List Nat
  lock_time : Nat
  sighash_type : Nat
  deriving DecidableEq, Repr

/-- `unsigned_tx.rs: PreImageWriteFlags`. -/
structure PreImageWriteFlags where
  version : Bool
  hash_prevouts : Bool
  hash_sequence : Bool
  outpoint : Bool
  script_code : Bool
  value : Bool
  sequence : Bool
  hash_outputs : Bool
  lock_time : Bool
  sighash_type : Bool
  deriving DecidableEq, Repr

/-- `unsigned_tx.rs: PreImage::write_to_stream_flags`: the selected fields
in canonical order; the `script_code` field is length-prefixed and written
in sig-script form. -/
def PreImage.writeToStreamFlags (p : PreImage) (f : PreImageWriteFlags) :
    Option (List Nat) :=
  match (if f.script_code then
      (p.script_code.toVecSig).map (fun sc => writeVarInt sc.length ++ sc)
    else some []) with
  | none => none
  | some scPart =>
    some ((if f.version then i32LE p.version else [])
    ++ (if f.hash_prevouts then p.hash_prevouts else [])
    ++ (if f.hash_sequence then p.hash_sequence else [])
    ++ (if f.outpoint then p.outpoint.tx_hash ++ u32LE p.outpoint.vout else [])
    ++ scPart
    ++ (if f.value then u64LE p.value else [])
    ++ (if f.sequence then u32LE p.sequence else [])
    ++ (if f.hash_outputs then p.hash_outputs else [])
    ++ (if f.lock_time then u32LE p.lock_time else [])
    ++ (if f.sighash_type then u32LE p.sighash_type else []))

/-- `unsigned_tx.rs: PreImage::empty`. -/
def PreImage.empty (script_code : Script) : PreImage :=
  ⟨0, List.replicate 32 0, List.replicate 32 0, ⟨List.replicate 32 0, 0⟩,
    script_code, 0, 0, List.replicate 32 0, 0, 0⟩

/-- `address.rs: Address`, reduced to the only data the core consumes: the
20-byte hash (`Address::bytes`). -/
structure Address where
  bytes : List Nat
  deriving DecidableEq, Repr

/-- The `unsigned_tx.rs: Output` trait, embedded as a record of its four
methods (the shape of a `Box<dyn Output>`).  Methods that can panic
(`script_code` and `sig_script` of some implementors) are `Option`-valued. -/
structure OutputObj where
  value : Nat
  script : Option Script
  scriptCode : Option Script
  sigScript : List Nat → List Nat → PreImage → List TxOutput → Option Script

/-- `unsigned_tx.rs: UnsignedInput`. -/
structure UnsignedInput where
  outpoint : TxOutpoint
  output : OutputObj
  sequence : Nat

/-- `unsigned_tx.rs: UnsignedTx`. -/
structure UnsignedTx where
  version : Int
  inputs : List UnsignedInput
  outputs : List TxOutput
  lock_time : Nat

/-- `outputs.rs: P2PKHOutput::script`:
`OP_DUP OP_HASH160 <20-byte hash> OP_EQUALVERIFY OP_CHECKSIG`. -/
def p2pkhScript (address : Address) : Script :=
  Script.new [Op.Code opDup, Op.Code opHash160, Op.Push address.bytes,
    Op.Code opEqualVerify, Op.Code opCheckSig]

/-- `outputs.rs: impl Output for P2PKHOutput`. -/
def P2PKHOutput (value : Nat) (address : Address) : OutputObj where
  value := value
  script := some (p2pkhScript address)
  scriptCode := some (p2pkhScript address)
  sigScript := fun serialized_sig serialized_pub_key _ _ =>
    some (Script.new [Op.Push serialized_sig, Op.Push serialized_pub_key])

/-- `MAX_SIGNATURE_SIZE` in `unsigned_tx.rs`. -/
def MAX_SIGNATURE_SIZE : Nat := 73

/-- `PUBKEY_SIZE` in `unsigned_tx.rs`. -/
def PUBKEY_SIZE : Nat := 33

/-- `unsigned_tx.rs: UnsignedTx::estimate_size`: serialize the transaction
with placeholder signatures (73 zero bytes) and public keys (33 zero bytes)
and an empty pre-image, and add 2 bytes of slack. -/
def estimateSize (utx : UnsignedTx) : Option Nat :=
  match utx.inputs.mapM (fun inp =>
    match inp.output.scriptCode with
    | none => none
    | some sc =>
      match inp.output.sigScript (List.replicate MAX_SIGNATURE_SIZE 0)
          (List.replicate PUBKEY_SIZE 0) (PreImage.empty sc) utx.outputs with
      | none => none
      | some script => some (TxInput.mk inp.outpoint script inp.sequence)) with
  | none => none
  | some txInputs =>
    match (Tx.mk utx.version txInputs utx.outputs utx.lock_time).writeToStream with
    | none => none
    | some bytes => some (bytes.length + 2)

/-- The `Result<Option<usize>, u64>` returned by
`UnsignedTx::insert_leftover_output`. -/
inductive LeftoverResult where
  | err (deficit : Nat)
  | ok (idx : Option Nat)
  deriving DecidableEq, Repr

/-- `u64` sum: every addition wraps mod `2 ^ 64`. -/
def sum64 (l : List Nat) : Nat :=
  l.foldl (fun a b => (a + b) % 2 ^ 64) 0

/-- `unsigned_tx.rs: UnsignedTx::insert_leftover_output`.  Returns the
mutated transaction together with the result; `none` models the panics of
`Vec::insert` (index out of bounds) and of a failing size estimate.
Subtractions are the wrapping `u64` subtractions of a release build. -/
def insertLeftoverOutput (utx : UnsignedTx) (leftoverIdx : Nat)
    (leftoverAddr : Address) (feePerKb dustLimit : Nat) :
    Option (UnsignedTx × LeftoverResult) :=
  let totalOutputAmount := sum64 (utx.outputs.map TxOutput.value)
  match estimateSize utx with
  | none => none
  | some txSizeWithout =>
    if leftoverIdx > utx.outputs.length then none
    else
      let placeholder : TxOutput :=
        ⟨0xffffffffffffffff, p2pkhScript leftoverAddr⟩
      let utx1 : UnsignedTx :=
        { utx with outputs := utx.outputs.insertIdx leftoverIdx placeholder }
      match estimateSize utx1 with
      | none => none
      | some txSize =>
        let fee := txSize % 2 ^ 64 * feePerKb % 2 ^ 64 / 1000
        let feeWithout := txSizeWithout % 2 ^ 64 * feePerKb % 2 ^ 64 / 1000
        let totalInputAmount :=
          sum64 (utx.inputs.map (fun inp => inp.output.value))
        let totalSpent := (totalOutputAmount + fee) % 2 ^ 64
        let totalSpentWithout := (totalOutputAmount + feeWithout) % 2 ^ 64
        if totalSpentWithout > totalInputAmount then
          some ({ utx with outputs := utx1.outputs.eraseIdx leftoverIdx },
            .err ((totalSpent + (2 ^ 64 - totalInputAmount)) % 2 ^ 64))
        else if totalInputAmount - totalSpentWithout < dustLimit then
          some ({ utx with outputs := utx1.outputs.eraseIdx leftoverIdx },
            .ok none)
        else
          let leftoverValue := (totalInputAmount + (2 ^ 64 - totalSpent)) % 2 ^ 64
          let outs2 := utx1.outputs.set leftoverIdx
            (TxOutput.mk leftoverValue (p2pkhScript leftoverAddr))
          some ({ utx with outputs := outs2 }, .ok (some leftoverIdx))

/-- `outputs.rs: SLPSend::into_output().script()`: a non-minimal-push
OP_RETURN script with pushes `"SLP\x00"`, `[token_type]`, `"SEND"`, the
reversed token id, and one big-endian u64 per output quantity. -/
def slpSendScript (tokenType : Nat) (tokenId : List Nat)
    (quantities : List Nat) : Script :=
  Script.newNonMinimalPush (Op.Code opReturnCode ::
    ([[0x53, 0x4c, 0x50, 0x00], [tokenType], [0x53, 0x45, 0x4e, 0x44],
      tokenId.reverse] ++ quantities.map u64BE).map Op.Push)

/-- `advanced_trade_offer.rs: AdvancedTradeOfferSpendParams`. -/
inductive ATOSpendParams where
  | AcceptPartially (buy_amount : Nat)
  | AcceptFully
  | Cancel
  deriving DecidableEq, Repr

/-- `advanced_trade_offer.rs: AdvancedTradeOffer`. -/
structure AdvancedTradeOffer where
  value : Nat
  lokad_id : List Nat
  version : Nat
  power : Nat
  is_inverted : Bool
  token_id : List Nat
  token_type : Nat
  sell_amount_token : Nat
  price : Nat
  dust_amount : Nat
  address : Address
  fee_address : Option Address
  fee_divisor : Option Nat
  spend_params : Option ATOSpendParams
  deriving Repr

/-- `AdvancedTradeOffer::_make_power_vec`. -/
def makePowerVec (o : AdvancedTradeOffer) : List Nat :=
  o.power :: (if o.is_inverted then [1] else [])

/-- The `serialize` op block of `AdvancedTradeOffer::_ops` (spliced in
twice). -/
def atoSerializeBlock : List Op :=
  [Op.Push [0x04], Op.Code opNum2Bin,
   Op.Push [1], Op.Code opSplitCode,
   Op.Push [1], Op.Code opSplitCode,
   Op.Push [1], Op.Code opSplitCode,
   Op.Code opSwap, Op.Code opCat,
   Op.Code opSwap, Op.Code opCat,
   Op.Code opSwap, Op.Code opCat]

/-- `advanced_trade_offer.rs: AdvancedTradeOffer::_ops`, the covenant
locking script.  `none` models the `panic!` on an inconsistent
`fee_address` / `fee_divisor` configuration. -/
def atoOps (o : AdvancedTradeOffer) : Option (List Op) :=
  match ((slpSendScript o.token_type o.token_id [0, 0, 0]).toVec).map List.length,
      ((slpSendScript o.token_type o.token_id [0, 0]).toVec).map List.length,
      (slpSendScript o.token_type o.token_id []).toVec,
      ((p2pkhScript o.address).toVec).map List.length,
      (match o.fee_address, o.fee_divisor with
        | some fa, some fd => ((p2pkhScript fa).toVec).map (fun v => some (fd, v))
        | none, none => some none
        | _, _ => none) with
  | some len3, some len2, some slpEmpty, some p2pkhSelfLen, some feeConfig =>
  let tuckOps : List Op := match feeConfig with
    | some _ => [Op.Code opTuck]
    | none => []
  let pushFeeOps : List Op := match feeConfig with
    | some (fd, feeOut) =>
      [Op.Code opRot, Op.Code opCat, Op.Code opSwap,
       Op.Push (encodeInt (toSigned32 fd)), Op.Code opDiv,
       Op.Push (encodeInt (toSigned32 o.dust_amount)), Op.Code opMax,
       Op.Push [0x08], Op.Code opNum2Bin,
       Op.Push (writeVarInt feeOut.length ++ feeOut), Op.Code opCat,
       Op.Code opCat]
    | none => [Op.Code opSwap, Op.Code opCat]
  some (
    [Op.Push (u32LE o.sell_amount_token),
     Op.Code opCodeSeparator,
     Op.Push o.address.bytes,
     Op.Code opRot, Op.Code opIf, Op.Code opToAltStack, Op.Code opBin2Num]
    ++ (if o.is_inverted = false then
        [Op.Code opOver, Op.Code opDup, Op.Push (encodeInt 0),
         Op.Code opGreaterThan, Op.Code opVerify,
         Op.Push (encodeInt (toSigned32 o.price)), Op.Code opDiv,
         Op.Code opTuck, Op.Code op2Dup, Op.Code opGreaterThanOrEqual,
         Op.Code opVerify]
      else
        [Op.Code op2Dup, Op.Code opLessThanOrEqual, Op.Code opVerify,
         Op.Code opOver, Op.Code opDup, Op.Push (encodeInt 0),
         Op.Code opGreaterThan, Op.Code opVerify, Op.Code opTuck])
    ++ [Op.Code opSub, Op.Code opTuck, Op.Code opDup, Op.Code op0NotEqual,
        Op.Code opIf]
    ++ atoSerializeBlock
    ++ [Op.Push [0x08], Op.Push [0x09], Op.Code opNum2Bin, Op.Code opCat,
        Op.Code opElse, Op.Push [0x04], Op.Code opNum2Bin, Op.Code opEndIf,
        Op.Push [0x08], Op.Push [0x05], Op.Code opNum2Bin, Op.Code opCat,
        Op.Push [0x02], Op.Code opPick, Op.Code op0NotEqual,
        Op.Push [], Op.Push [0x08], Op.Code opNum2Bin, Op.Code opSwap,
        Op.Code opIf, Op.Push (writeVarInt len3), Op.Code opElse,
        Op.Push (writeVarInt len2), Op.Code opEndIf, Op.Code opCat,
        Op.Push (slpEmpty ++ [0x08, 0, 0, 0, 0]), Op.Code opCat,
        Op.Code opSwap, Op.Code opCat, Op.Code opSwap]
    ++ atoSerializeBlock
    ++ [Op.Code opCat, Op.Code opOver, Op.Code op0NotEqual, Op.Code opIf,
        Op.Push (encodeInt (toSigned32 o.dust_amount)), Op.Push [0x08],
        Op.Code opNum2Bin, Op.Push [23, opHash160, 20], Op.Code opCat,
        Op.Code opCat, Op.Code opSwap, Op.Push [0x04], Op.Code opNum2Bin,
        Op.Push [0x04], Op.Code opSwap, Op.Code opCat,
        Op.Push [opCodeSeparator], Op.Code opCat, Op.Push [0x06],
        Op.Code opPick, Op.Code opCat, Op.Code opHash160, Op.Push [opEqual],
        Op.Code opCat, Op.Code opCat, Op.Code opElse, Op.Code opNip,
        Op.Code opEndIf, Op.Code opSwap]
    ++ (if o.is_inverted then
        [Op.Push (encodeInt (toSigned32 o.price)), Op.Code op2Dup,
         Op.Code opMod, Op.Push (encodeInt 0), Op.Code opNumEqualVerify,
         Op.Code opDiv]
      else [])
    ++ tuckOps
    ++ [Op.Push [0x08], Op.Code opNum2Bin, Op.Code opCat,
        Op.Push (writeVarInt p2pkhSelfLen ++ [opDup, opHash160, 20]),
        Op.Code opFromAltStack, Op.Code opDup, Op.Code opToAltStack,
        Op.Code opCat, Op.Push [opEqualVerify, opCheckSig], Op.Code opCat,
        Op.Code opCat]
    ++ pushFeeOps
    ++ [Op.Code opHash256, Op.Code opSwap, Op.Code opCat, Op.Code opCat,
        Op.Code opCat, Op.Code opCat, Op.Code opSha256, Op.Code opOver,
        Op.Push [0x41], Op.Code opCat, Op.Push [0x03], Op.Code opPick,
        Op.Code opCheckSigVerify, Op.Code opRot, Op.Code opCheckDataSigVerify,
        Op.Code opFromAltStack, Op.Code opEqualVerify,
        Op.Push (u32BE o.price), Op.Code opEqualVerify,
        Op.Push (makePowerVec o), Op.Code opEqualVerify,
        Op.Push [o.version], Op.Code opEqualVerify,
        Op.Push o.lokad_id, Op.Code opEqual,
        Op.Code opElse, Op.Code opNip, Op.Code opOver, Op.Code opHash160,
        Op.Code opEqualVerify, Op.Code opCheckSig, Op.Code opEndIf])
  | _, _, _, _, _ => none

/-- The pre-image flag set for the prefix pushed by both covenants:
version, hashPrevouts, hashSequence, outpoint. -/
def headFlags : PreImageWriteFlags :=
  ⟨true, true, true, true, false, false, false, false, false, false⟩

/-- The pre-image flag set for value + sequence. -/
def middleFlags : PreImageWriteFlags :=
  ⟨false, false, false, false, false, true, true, false, false, false⟩

/-- The pre-image flag set for lockTime + sighashType. -/
def tailFlags : PreImageWriteFlags :=
  ⟨false, false, false, false, false, false, false, false, true, true⟩

/-- The accept branch of `AdvancedTradeOffer::sig_script` (after the
`Cancel` early return): 14 pushes.  `buyAmount` and `isAcceptFully` come
from the spend parameters. -/
def atoAcceptWitness (o : AdvancedTradeOffer) (sig pk : List Nat)
    (pim : PreImage) (outputs : List TxOutput) (buyAmount : Nat)
    (isAcceptFully : Bool) : Option Script :=
  if sig = [] then none
  else
    match atoOps o with
    | none => none
    | some ops =>
    match (Script.new ops).toVecSig with
    | none => none
    | some scriptCode =>
    match pim.writeToStreamFlags headFlags, pim.writeToStreamFlags middleFlags,
        pim.writeToStreamFlags tailFlags with
    | some headPart, some middlePart, some tailPart =>
    let a := if isAcceptFully then 2 else 3
    let adj := if o.fee_address.isSome then 1 else 0
    if adj > outputs.length then none
    else if a > outputs.length - adj then none
    else
      let slice := (outputs.drop a).take (outputs.length - adj - a)
      match (slice.mapM TxOutput.writeToStream).map List.flatten with
      | none => none
      | some outputsEnd =>
      some (Script.new
        [Op.Push o.lokad_id,
         Op.Push [o.version],
         Op.Push (makePowerVec o),
         Op.Push (u32BE o.price),
         Op.Push o.address.bytes,
         Op.Push pk,
         Op.Push sig.dropLast,
         Op.Push (headPart ++ writeVarInt scriptCode.length),
         Op.Push scriptCode,
         Op.Push middlePart,
         Op.Push tailPart,
         Op.Push outputsEnd,
         Op.Push (encodeInt (toSigned32 buyAmount)),
         Op.Push (encodeInt 1)])
    | _, _, _ => none

/-- `advanced_trade_offer.rs: AdvancedTradeOffer::sig_script`.  `none`
models the `panic!` on missing spend params and the panics inside the
accept branch (empty signature, inconsistent fee config, out-of-range
output slicing). -/
def atoSigScript (o : AdvancedTradeOffer) (sig pk : List Nat)
    (pim : PreImage) (outputs : List TxOutput) : Option Script :=
  let acceptFullyAmount :=
    if o.is_inverted then o.sell_amount_token
    else o.sell_amount_token * o.price % 2 ^ 64
  match o.spend_params with
  | none => none
  | some .Cancel => some (Script.new [Op.Push sig, Op.Push pk, Op.Push []])
  | some .AcceptFully =>
    atoAcceptWitness o sig pk pim outputs acceptFullyAmount true
  | some (.AcceptPartially buy_amount) =>
    atoAcceptWitness o sig pk pim outputs buy_amount
      (decide (buy_amount = acceptFullyAmount))

/-- `p2_ascending_nonce.rs: P2AscendingNonceSpendParams`. -/
inductive P2ANSpendParams where
  | NonceRedeem (payment_amount : Int) (new_nonce : Int)
      (owner_sig : List Nat) (is_terminal : Bool)
  | NonceRefill (payment_amount : Int)
  | P2pk
  deriving DecidableEq, Repr

/-- `p2_ascending_nonce.rs: P2AscendingNonce`. -/
structure P2AscendingNonce where
  lokad_id : List Nat
  old_value : Nat
  owner_pk : List Nat
  old_nonce : Int
  dust_limit : Int
  spend_params : Option P2ANSpendParams
  deriving Repr

/-- `p2_ascending_nonce.rs: P2AscendingNonce::_ops`, the covenant locking
script.  The first push is the 8-byte nonce slot
(`abs(old_nonce)` little-endian ++ `[0, 0, 0, sign_byte]`). -/
def p2anOps (o : P2AscendingNonce) : List Op :=
  [Op.Push (leBytes 4 (o.old_nonce.natAbs % 2 ^ 32)
      ++ [0, 0, 0, if o.old_nonce < 0 then 0x80 else 0]),
   Op.Push o.owner_pk,
   Op.Code opRot,
   Op.Code opIf,
   Op.Code opToAltStack, Op.Code opBin2Num, Op.Code opOver,
   Op.Push (encodeInt 6), Op.Code opPick, Op.Push [],
   Op.Code opGreaterThanOrEqual,
   Op.Code opIf, Op.Code opLessThan,
   Op.Code opElse, Op.Code opEqual, Op.Code opEndIf,
   Op.Code opVerify, Op.Push [8], Op.Code opNum2Bin, Op.Code opDup,
   Op.Code opToAltStack, Op.Push [0x08], Op.Code opSwap, Op.Code opCat,
   Op.Code opRot, Op.Code opRot, Op.Code opCat, Op.Code opTuck,
   Op.Code opCat, Op.Code opHash160, Op.Code opSwap, Op.Code opToAltStack,
   Op.Code opToAltStack, Op.Code op2Dup, Op.Code opSwap, Op.Code opSub,
   Op.Code opDup, Op.Push (encodeInt o.dust_limit),
   Op.Code opGreaterThanOrEqual,
   Op.Code opIf, Op.Push [8], Op.Code opNum2Bin,
   Op.Push [23, opHash160, 20], Op.Code opFromAltStack, Op.Push [opEqual],
   Op.Code opCat, Op.Code opCat, Op.Code opCat,
   Op.Code opElse, Op.Code opFromAltStack, Op.Code op2Drop, Op.Push [],
   Op.Code opEndIf,
   Op.Push (encodeInt 7), Op.Code opRoll, Op.Code opCat, Op.Code opHash256,
   Op.Code opSwap, Op.Push [8], Op.Code opNum2Bin, Op.Push (encodeInt 4),
   Op.Code opRoll, Op.Code opSize, Op.Push (encodeInt 114),
   Op.Code opNumEqualVerify, Op.Code opFromAltStack, Op.Code opCat,
   Op.Code opSwap, Op.Code opCat, Op.Push [0xff, 0xff, 0xff, 0xff],
   Op.Code opCat, Op.Code opSwap, Op.Code opCat, Op.Code opRot,
   Op.Code opSize, Op.Push [8], Op.Code opNumEqualVerify, Op.Code opCat,
   Op.Code opSha256, Op.Code op2Swap, Op.Code opOver, Op.Code opToAltStack,
   Op.Code op2Dup, Op.Push [0x41], Op.Code opCat, Op.Code opSwap,
   Op.Code opCheckSigVerify, Op.Code opRot, Op.Code opRot,
   Op.Code opCheckDataSigVerify, Op.Code opDup, Op.Push [],
   Op.Code opGreaterThanOrEqual,
   Op.Code opIf, Op.Push [8], Op.Code opNum2Bin, Op.Code opFromAltStack,
   Op.Code opHash160, Op.Code opSwap, Op.Code opCat, Op.Code opFromAltStack,
   Op.Code opCat, Op.Code opFromAltStack, Op.Code opCheckDataSigVerify,
   Op.Push o.lokad_id, Op.Code opEqual,
   Op.Code opElse, Op.Code op2Drop, Op.Code opEndIf,
   Op.Code opElse, Op.Code opNip, Op.Code opCheckSig, Op.Code opEndIf]

/-- The redeem/refill branch of `P2AscendingNonce::sig_script`: 13 pushes.
`nonce_size = 9` and `pk_size = 34` are the serialized lengths of the
`PUSH <8-byte nonce>` and `PUSH <33-byte pubkey>` ops. -/
def p2anWitness (o : P2AscendingNonce) (sig pk : List Nat) (pim : PreImage)
    (outputs : List TxOutput) (paymentAmount newNonce : Int)
    (ownerSig : List Nat) (isTerminal : Bool) : Option Script :=
  if sig = [] then none
  else
    match (Script.new (p2anOps o)).toVecSig with
    | none => none
    | some scriptCode =>
    let start := if isTerminal then 0 else 1
    if start > outputs.length then none
    else
      match ((outputs.drop start).mapM TxOutput.writeToStream).map
          List.flatten with
      | none => none
      | some outputsPost =>
      match pim.writeToStreamFlags headFlags with
      | none => none
      | some headPart =>
      if scriptCode.length < 9 then none
      else
        match pim.writeToStreamFlags tailFlags with
        | none => none
        | some tailPart =>
        if o.old_value ≥ 2 ^ 31 then none
        else if scriptCode.length < 9 + 34 then none
        else
          some (Script.new
            [Op.Push o.lokad_id,
             Op.Push ownerSig,
             Op.Push outputsPost,
             Op.Push pk,
             Op.Push sig.dropLast,
             Op.Push (headPart ++ writeVarInt scriptCode.length
               ++ scriptCode.take 9),
             Op.Push tailPart,
             Op.Push (encodeInt paymentAmount),
             Op.Push (encodeInt (o.old_value : Int)),
             Op.Push ((scriptCode.drop 9).take 34),
             Op.Push ((scriptCode.drop 9).drop 34),
             Op.Push (encodeInt newNonce),
             Op.Push [1]])

/-- `p2_ascending_nonce.rs: P2AscendingNonce::sig_script`.  A refill reuses
`old_nonce` as the new nonce, an empty owner signature and
`is_terminal = false`. -/
def p2anSigScript (o : P2AscendingNonce) (sig pk : List Nat)
    (pim : PreImage) (outputs : List TxOutput) : Option Script :=
  match o.spend_params with
  | none => none
  | some .P2pk => some (Script.new [Op.Push sig, Op.Push (encodeInt 0)])
  | some (.NonceRedeem payment_amount new_nonce owner_sig is_terminal) =>
    p2anWitness o sig pk pim outputs payment_amount new_nonce owner_sig
      is_terminal
  | some (.NonceRefill payment_amount) =>
    p2anWitness o sig pk pim outputs payment_amount o.old_nonce [] false

/-! ### Spec-side definitions

`afterLastSepOps` renders the spec's phrase "the ops strictly after the
rightmost `OP_CODESEPARATOR` (all of them if none is present)" directly,
to be compared with the index-skipping loop of `to_vec_sig`. -/

def afterLastSepOps (ops : List Op) : List Op :=
  (ops.reverse.takeWhile (fun op => op ≠ Op.Code opCodeSeparator)).reverse

/-- The 14 pushes the claim ascribes to an accepting trade-offer witness,
in the claim's order: LOKAD id, version byte, power vector, big-endian
price, seller hash, public key, signature minus its sighash byte, pre-image
prefix plus script-code var-int, script code, value+sequence,
lockTime+sighashType, serialized outputs tail, script-numeric buy amount,
and the byte 0x01. -/
def atoClaimPushes (o : AdvancedTradeOffer) (sig pk : List Nat)
    (pim : PreImage) (sc obs : List Nat) (buyAmount : Nat) : List Op :=
  [Op.Push o.lokad_id, Op.Push [o.version], Op.Push (makePowerVec o),
   Op.Push (u32BE o.price), Op.Push o.address.bytes, Op.Push pk,
   Op.Push sig.dropLast,
   Op.Push (i32LE pim.version ++ pim.hash_prevouts ++ pim.hash_sequence
     ++ pim.outpoint.tx_hash ++ u32LE pim.outpoint.vout
     ++ writeVarInt sc.length),
   Op.Push sc,
   Op.Push (u64LE pim.value ++ u32LE pim.sequence),
   Op.Push (u32LE pim.lock_time ++ u32LE pim.sighash_type),
   Op.Push obs,
   Op.Push (encodeInt (buyAmount : Int)),
   Op.Push [0x01]]

/-- The spec's "sum of the output values" as a plain (non-wrapping) sum. -/
def outputTotal (utx : UnsignedTx) : Nat := (utx.outputs.map TxOutput.value).sum

/-- The spec's "sum of the input values" as a plain (non-wrapping) sum. -/
def inputTotal (utx : UnsignedTx) : Nat :=
  (utx.inputs.map (fun inp => inp.output.value)).sum

/-! ### Concrete example data used by counterexamples and witnesses -/

/-- A 20-byte address hash. -/
def exAddr : Address := ⟨List.replicate 20 0xaa⟩

/-- A second 20-byte address hash. -/
def exAddr2 : Address := ⟨List.replicate 20 0xbb⟩

/-- An empty-script pre-image placeholder. -/
def exPim : PreImage := PreImage.empty (Script.new [])

/-- Four transaction outputs with distinct values and empty scripts. -/
def exOuts : List TxOutput :=
  [⟨0, Script.new []⟩, ⟨1, Script.new []⟩, ⟨2, Script.new []⟩,
   ⟨3, Script.new []⟩]

/-- A trade offer whose full-accept amount is `10 * 2 = 20`, spent with
`AcceptPartially 20` (a partial accept whose buy amount equals the full
amount). -/
def exAtoBoundary : AdvancedTradeOffer :=
  { value := 546, lokad_id := [0x45, 0x58, 0x43, 0x48], version := 2,
    power := 0, is_inverted := false, token_id := List.replicate 32 0x11,
    token_type := 1, sell_amount_token := 10, price := 2, dust_amount := 546,
    address := exAddr, fee_address := none, fee_divisor := none,
    spend_params := some (.AcceptPartially 20) }

/-- The same offer spent with `AcceptPartially 6` (a strictly partial
accept). -/
def exAtoPartial : AdvancedTradeOffer :=
  { exAtoBoundary with spend_params := some (.AcceptPartially 6) }

/-- The locking-script ops of `exAtoPartial` (defined, since the fee config
is consistent). -/
def exAtoOps : List Op := (atoOps exAtoPartial).getD []

/-- The sig-script form of the `exAtoPartial` locking script. -/
def exAtoSc : List Nat := ((Script.new exAtoOps).toVecSig).getD []

/-- An ascending-nonce covenant with `old_nonce = 5`, spent by a redeem
whose `new_nonce` equals `old_nonce` (not smaller). -/
def exPanEq : P2AscendingNonce :=
  { lokad_id := [0x4c, 0x4b], old_value := 100000,
    owner_pk := List.replicate 33 2, old_nonce := 5, dust_limit := 546,
    spend_params := some (.NonceRedeem 30000 5 [0xcd] false) }

/-- The sig-script form of the `exPanEq` locking script. -/
def exPanSc : List Nat := ((Script.new (p2anOps exPanEq)).toVecSig).getD []

/-- The serialized outputs after the first for the example spend. -/
def exPanObs : List Nat :=
  ((((exOuts.drop 1).mapM TxOutput.writeToStream).map List.flatten)).getD []

/-- The serialized example outputs from index 2 on. -/
def exAtoObs2 : List Nat :=
  (((exOuts.drop 2).mapM TxOutput.writeToStream).map List.flatten).getD []

/-- The serialized example outputs from index 3 on. -/
def exAtoObs3 : List Nat :=
  (((exOuts.drop 3).mapM TxOutput.writeToStream).map List.flatten).getD []

/-- A single-input single-output unsigned transaction: one P2PKH input of
20000 units, one 15000-unit recipient output. -/
def exUtx : UnsignedTx :=
  { version := 1,
    inputs := [⟨⟨List.replicate 32 0x01, 0⟩, P2PKHOutput 20000 exAddr, 0xffffffff⟩],
    outputs := [⟨15000, p2pkhScript exAddr2⟩],
    lock_time := 0 }

/-- `exUtx` with a 25000-unit recipient output instead (forcing the
shortfall branch of change insertion). -/
def exUtxPoor : UnsignedTx :=
  { exUtx with outputs := [⟨25000, p2pkhScript exAddr2⟩] }

/-- `exUtx` with a 19700-unit recipient output (leaving less than dust). -/
def exUtxDust : UnsignedTx :=
  { exUtx with outputs := [⟨19700, p2pkhScript exAddr2⟩] }

/-! ## Helper lemmas: bytes and two's-complement arithmetic -/

set_option maxRecDepth 10000

theorem and128_lt (b : Nat) (h : b < 128) : b &&& 128 = 0 := by
  have key : ∀ b' < 128, b' &&& 128 = 0 := by decide
  exact key b h

theorem and128_ge (b : Nat) (h1 : 128 ≤ b) (h2 : b < 256) : b &&& 128 = 128 := by
  have key : ∀ b' < 256, 128 ≤ b' → b' &&& 128 = 128 := by decide
  exact key b h2 h1

theorem and128_eq_zero_lt (b : Nat) (h : b < 256) (hz : b &&& 128 = 0) :
    b < 128 := by
  have key : ∀ b' < 256, b' &&& 128 = 0 → b' < 128 := by decide
  exact key b h hz

theorem and127_lt (b : Nat) (h : b < 128) : b &&& 127 = b := by
  have key : ∀ b' < 128, b' &&& 127 = b' := by decide
  exact key b h

theorem or128_lt (b : Nat) (h : b < 128) : b ||| 128 = b + 128 := by
  have key : ∀ b' < 128, b' ||| 128 = b' + 128 := by decide
  exact key b h

theorem xor128 (b : Nat) (h1 : 128 ≤ b) (h2 : b < 256) : b ^^^ 128 = b - 128 := by
  have key : ∀ b' < 256, 128 ≤ b' → b' ^^^ 128 = b' - 128 := by decide
  exact key b h2 h1

theorem toSigned32_small (n : Nat) (h : n < 2 ^ 31) : toSigned32 n = (n : Int) := by
  unfold toSigned32
  rw [Nat.mod_eq_of_lt (by omega), if_pos (by omega)]

theorem toSigned32_large (n : Nat) (h1 : 2 ^ 31 ≤ n) (h2 : n < 2 ^ 32) :
    toSigned32 n = (n : Int) - 2 ^ 32 := by
  unfold toSigned32
  rw [Nat.mod_eq_of_lt (by omega), if_neg (by omega)]

/-! Evaluation of `vecToInt` on byte lists of length 1 to 4 whose final
byte decides the sign. -/

theorem vtiPos1 (b0 : Nat) (h0 : b0 < 128) :
    vecToInt [b0] = ((b0 : Nat) : Int) := by
  have e0 := and128_lt b0 h0
  simp only [vecToInt, List.getLast?, vecToIntCore]
  simp only [Nat.shiftLeft_eq, Nat.pow_zero, Nat.mul_one, Nat.zero_add]
  norm_num
  rw [if_pos e0, Nat.mod_eq_of_lt (by omega), toSigned32_small _ (by omega)]

theorem vtiPos2 (b0 b1 : Nat) (h0 : b0 < 256) (h1 : b1 < 128) :
    vecToInt [b0, b1] = ((b0 + b1 * 2 ^ 8 : Nat) : Int) := by
  have e1 := and128_lt b1 h1
  simp only [vecToInt, List.getLast?, vecToIntCore, e1]
  simp only [Nat.shiftLeft_eq, Nat.pow_zero, Nat.mul_one, Nat.zero_add]
  norm_num
  rw [if_pos e1, Nat.mod_eq_of_lt (by omega), toSigned32_small _ (by omega)]
  push_cast
  ring

theorem vtiPos3 (b0 b1 b2 : Nat) (h0 : b0 < 256) (h1 : b1 < 256)
    (h2 : b2 < 128) :
    vecToInt [b0, b1, b2] = ((b0 + b1 * 2 ^ 8 + b2 * 2 ^ 16 : Nat) : Int) := by
  have e2 := and128_lt b2 h2
  simp only [vecToInt, List.getLast?, vecToIntCore, e2]
  simp only [Nat.shiftLeft_eq, Nat.pow_zero, Nat.mul_one, Nat.zero_add]
  norm_num
  rw [if_pos e2, Nat.mod_eq_of_lt (by omega), toSigned32_small _ (by omega)]
  push_cast
  ring

theorem vtiPos4 (b0 b1 b2 b3 : Nat) (h0 : b0 < 256) (h1 : b1 < 256)
    (h2 : b2 < 256) (h3 : b3 < 128) :
    vecToInt [b0, b1, b2, b3] =
      ((b0 + b1 * 2 ^ 8 + b2 * 2 ^ 16 + b3 * 2 ^ 24 : Nat) : Int) := by
  have e3 := and128_lt b3 h3
  simp only [vecToInt, List.getLast?, vecToIntCore, e3]
  simp only [Nat.shiftLeft_eq, Nat.pow_zero, Nat.mul_one, Nat.zero_add]
  norm_num
  rw [if_pos e3, Nat.mod_eq_of_lt (by omega), toSigned32_small _ (by omega)]
  push_cast
  ring

theorem vtiNeg1 (b0 : Nat) (h0 : 128 ≤ b0) (h0' : b0 < 256) :
    vecToInt [b0] = -(((b0 - 128 : Nat)) : Int) := by
  have e0 := and128_ge b0 h0 h0'
  have ex := xor128 b0 h0 h0'
  simp only [vecToInt, List.getLast?, vecToIntCore]
  simp only [Nat.shiftLeft_eq, Nat.pow_zero, Nat.mul_one, Nat.zero_add]
  norm_num
  rw [if_neg (by omega), e0, ex]
  by_cases hS : b0 = 128
  · subst hS
    decide
  · rw [Nat.mod_eq_of_lt (by omega), Nat.mod_eq_of_lt (by omega),
      toSigned32_large _ (by omega) (by omega)]
    push_cast
    omega

theorem vtiNeg2 (b0 b1 : Nat) (h0 : b0 < 256) (h1 : 128 ≤ b1) (h1' : b1 < 256) :
    vecToInt [b0, b1] = -((b0 + (b1 - 128) * 2 ^ 8 : Nat) : Int) := by
  have e1 := and128_ge b1 h1 h1'
  have ex := xor128 b1 h1 h1'
  simp only [vecToInt, List.getLast?, vecToIntCore]
  simp only [Nat.shiftLeft_eq, Nat.pow_zero, Nat.mul_one, Nat.zero_add]
  norm_num
  rw [if_neg (by omega), e1, ex,
    Nat.mod_eq_of_lt (show b0 + (b1 - 128) * 256 < 4294967296 by omega)]
  by_cases hS : b0 + (b1 - 128) * 256 = 0
  · obtain ⟨q0, q1⟩ : b0 = 0 ∧ b1 = 128 := by omega
    subst q0; subst q1
    decide
  · rw [Nat.mod_eq_of_lt (by omega), toSigned32_large _ (by omega) (by omega)]
    push_cast
    omega

theorem vtiNeg3 (b0 b1 b2 : Nat) (h0 : b0 < 256) (h1 : b1 < 256)
    (h2 : 128 ≤ b2) (h2' : b2 < 256) :
    vecToInt [b0, b1, b2] =
      -((b0 + b1 * 2 ^ 8 + (b2 - 128) * 2 ^ 16 : Nat) : Int) := by
  have e2 := and128_ge b2 h2 h2'
  have ex := xor128 b2 h2 h2'
  simp only [vecToInt, List.getLast?, vecToIntCore]
  simp only [Nat.shiftLeft_eq, Nat.pow_zero, Nat.mul_one, Nat.zero_add]
  norm_num
  rw [if_neg (by omega), e2, ex,
    Nat.mod_eq_of_lt
      (show b0 + b1 * 256 + (b2 - 128) * 65536 < 4294967296 by omega)]
  by_cases hS : b0 + b1 * 256 + (b2 - 128) * 65536 = 0
  · obtain ⟨q0, q1, q2⟩ : b0 = 0 ∧ b1 = 0 ∧ b2 = 128 := by omega
    subst q0; subst q1; subst q2
    decide
  · rw [Nat.mod_eq_of_lt (by omega), toSigned32_large _ (by omega) (by omega)]
    push_cast
    omega

theorem vtiNeg4 (b0 b1 b2 b3 : Nat) (h0 : b0 < 256) (h1 : b1 < 256)
    (h2 : b2 < 256) (h3 : 128 ≤ b3) (h3' : b3 < 256) :
    vecToInt [b0, b1, b2, b3] =
      -((b0 + b1 * 2 ^ 8 + b2 * 2 ^ 16 + (b3 - 128) * 2 ^ 24 : Nat) : Int) := by
  have e3 := and128_ge b3 h3 h3'
  have ex := xor128 b3 h3 h3'
  simp only [vecToInt, List.getLast?, vecToIntCore]
  simp only [Nat.shiftLeft_eq, Nat.pow_zero, Nat.mul_one, Nat.zero_add]
  norm_num
  rw [if_neg (by omega), e3, ex,
    Nat.mod_eq_of_lt
      (show b0 + b1 * 256 + b2 * 65536 + (b3 - 128) * 16777216 < 4294967296
        by omega)]
  by_cases hS : b0 + b1 * 256 + b2 * 65536 + (b3 - 128) * 16777216 = 0
  · obtain ⟨q0, q1, q2, q3⟩ : b0 = 0 ∧ b1 = 0 ∧ b2 = 0 ∧ b3 = 128 := by omega
    subst q0; subst q1; subst q2; subst q3
    decide
  · rw [Nat.mod_eq_of_lt (by omega), toSigned32_large _ (by omega) (by omega)]
    push_cast
    omega

/-! Characterization of the minimization pass on the two byte shapes
produced by `encodeInt`. -/

theorem em4 (b0 b1 b2 b3 : Nat) (h3 : b3 < 128) :
    encodeMinimally [b0, b1, b2, b3] =
      if b3 ≠ 0 then [b0, b1, b2, b3]
      else if b2 &&& 0x80 ≠ 0 then [b0, b1, b2, b3]
      else if b2 ≠ 0 then [b0, b1, b2 ||| b3]
      else if b1 &&& 0x80 ≠ 0 then [b0, b1, b3]
      else if b1 ≠ 0 then [b0, b1 ||| b3]
      else if b0 &&& 0x80 ≠ 0 then [b0, b3]
      else if b0 ≠ 0 then [b0 ||| b3]
      else [] := by
  have h127 := and127_lt b3 h3
  simp only [encodeMinimally, List.getLast?, List.dropLast, List.reverse,
    encodeMinimallyCore, List.length, List.getD, List.getLast, List.get?,
    List.reverseAux, h127]
  norm_num
  split_ifs <;> simp_all

theorem em5 (b0 b1 b2 b3 : Nat) (h3 : b3 < 128) :
    encodeMinimally [b0, b1, b2, b3, 128] =
      if b3 ≠ 0 then [b0, b1, b2, b3 ||| 128]
      else if b2 &&& 0x80 ≠ 0 then [b0, b1, b2, 128]
      else if b2 ≠ 0 then [b0, b1, b2 ||| 128]
      else if b1 &&& 0x80 ≠ 0 then [b0, b1, 128]
      else if b1 ≠ 0 then [b0, b1 ||| 128]
      else if b0 &&& 0x80 ≠ 0 then [b0, 128]
      else if b0 ≠ 0 then [b0 ||| 128]
      else [] := by
  have h128 := and128_lt b3 h3
  have e1 : (128 : Nat) &&& 127 = 0 := by decide
  simp only [encodeMinimally, List.getLast?, List.dropLast, List.reverse,
    encodeMinimallyCore, List.length, List.getD, List.getLast, List.get?,
    List.reverseAux, h128, e1]
  norm_num
  split_ifs <;> simp_all

/-- Round trip for nonnegative script numbers up to `2^31 - 1`. -/
theorem encodeInt_vecToInt_nonneg (m : Nat) (hm : m ≤ 2 ^ 31 - 1) :
    vecToInt (encodeInt (m : Int)) = (m : Int) := by
  unfold encodeInt
  rw [Int.natAbs_ofNat, if_neg (by omega), Nat.mod_eq_of_lt (by omega)]
  simp only [leBytes, List.append_nil]
  have hb0 : m % 256 < 256 := Nat.mod_lt _ (by omega)
  have hb1 : m / 256 % 256 < 256 := Nat.mod_lt _ (by omega)
  have hb2 : m / 256 / 256 % 256 < 256 := Nat.mod_lt _ (by omega)
  have hb3 : m / 256 / 256 / 256 % 256 < 128 := by omega
  rw [em4 _ _ _ _ hb3]
  split_ifs with c1 c2 c3 c4 c5 c6 c7
  · rw [vtiPos4 _ _ _ _ hb0 hb1 hb2 hb3]
    congr 1
    omega
  · rw [vtiPos4 _ _ _ _ hb0 hb1 hb2 hb3]
    congr 1
    omega
  · have hc2 : m / 256 / 256 % 256 < 128 := and128_eq_zero_lt _ hb2 (by omega)
    rw [(by omega : m / 256 / 256 / 256 % 256 = 0), Nat.or_zero]
    rw [vtiPos3 _ _ _ hb0 hb1 hc2]
    congr 1
    omega
  · rw [(by omega : m / 256 / 256 / 256 % 256 = 0)]
    rw [vtiPos3 _ _ _ hb0 hb1 (by omega)]
    congr 1
    omega
  · have hc4 : m / 256 % 256 < 128 := and128_eq_zero_lt _ hb1 (by omega)
    rw [(by omega : m / 256 / 256 / 256 % 256 = 0), Nat.or_zero]
    rw [vtiPos2 _ _ hb0 hc4]
    congr 1
    omega
  · rw [(by omega : m / 256 / 256 / 256 % 256 = 0)]
    rw [vtiPos2 _ _ hb0 (by omega)]
    congr 1
    omega
  · have hc6 : m % 256 < 128 := and128_eq_zero_lt _ hb0 (by omega)
    rw [(by omega : m / 256 / 256 / 256 % 256 = 0), Nat.or_zero]
    rw [vtiPos1 _ hc6]
    congr 1
    omega
  · have hm0 : m = 0 := by omega
    subst hm0
    decide

/-- Round trip for negative script numbers down to `-(2^31 - 1)`. -/
theorem encodeInt_vecToInt_neg (m : Nat) (h1 : 1 ≤ m) (hm : m ≤ 2 ^ 31 - 1) :
    vecToInt (encodeInt (-(m : Int))) = -(m : Int) := by
  unfold encodeInt
  rw [Int.natAbs_neg, Int.natAbs_ofNat, if_pos (by omega),
    Nat.mod_eq_of_lt (by omega)]
  simp only [leBytes]
  have hb0 : m % 256 < 256 := Nat.mod_lt _ (by omega)
  have hb1 : m / 256 % 256 < 256 := Nat.mod_lt _ (by omega)
  have hb2 : m / 256 / 256 % 256 < 256 := Nat.mod_lt _ (by omega)
  have hb3 : m / 256 / 256 / 256 % 256 < 128 := by omega
  have hList : [m % 256, m / 256 % 256, m / 256 / 256 % 256,
      m / 256 / 256 / 256 % 256] ++ [128] =
      [m % 256, m / 256 % 256, m / 256 / 256 % 256,
        m / 256 / 256 / 256 % 256, 128] := rfl
  rw [hList, em5 _ _ _ _ hb3]
  split_ifs with c1 c2 c3 c4 c5 c6 c7
  · rw [or128_lt _ hb3]
    rw [vtiNeg4 _ _ _ _ hb0 hb1 hb2 (by omega) (by omega)]
    congr 1
    congr 1
    omega
  · rw [vtiNeg4 _ _ _ _ hb0 hb1 hb2 (by omega) (by omega)]
    congr 1
    congr 1
    omega
  · have hc2 : m / 256 / 256 % 256 < 128 := and128_eq_zero_lt _ hb2 (by omega)
    rw [or128_lt _ hc2]
    rw [vtiNeg3 _ _ _ hb0 hb1 (by omega) (by omega)]
    congr 1
    congr 1
    omega
  · rw [vtiNeg3 _ _ _ hb0 hb1 (by omega) (by omega)]
    congr 1
    congr 1
    omega
  · have hc4 : m / 256 % 256 < 128 := and128_eq_zero_lt _ hb1 (by omega)
    rw [or128_lt _ hc4]
    rw [vtiNeg2 _ _ hb0 (by omega) (by omega)]
    congr 1
    congr 1
    omega
  · rw [vtiNeg2 _ _ hb0 (by omega) (by omega)]
    congr 1
    congr 1
    omega
  · have hc6 : m % 256 < 128 := and128_eq_zero_lt _ hb0 (by omega)
    rw [or128_lt _ hc6]
    rw [vtiNeg1 _ (by omega) (by omega)]
    congr 1
    congr 1
    omega
  · omega

/-- C9: for every integer `i` in `[-2^31 + 1, 2^31 - 1]`,
`vec_to_int(encode_int(i)) = i`: the minimal script-numeric encoding
(little-endian magnitude, sign bit folded into the last byte, zero encoded
as the empty string) is inverted exactly by `vec_to_int`. -/
theorem encode_int_roundtrip (i : Int) (hlo : -(2 ^ 31) + 1 ≤ i)
    (hhi : i ≤ 2 ^ 31 - 1) : vecToInt (encodeInt i) = i := by
  rcases le_or_lt 0 i with hpos | hneg
  · have hi : i = ((i.natAbs : Nat) : Int) := by omega
    rw [hi]
    exact encodeInt_vecToInt_nonneg i.natAbs (by omega)
  · have hi : i = -((i.natAbs : Nat) : Int) := by omega
    rw [hi]
    exact encodeInt_vecToInt_neg i.natAbs (by omega) (by omega)

/-- Witness for C9's theorem at `i = -300`. -/
theorem encode_int_roundtrip_witness :
    (-(2 ^ 31) + 1 ≤ (-300 : Int) ∧ (-300 : Int) ≤ 2 ^ 31 - 1) ∧
      vecToInt (encodeInt (-300 : Int)) = (-300 : Int) :=
  ⟨by decide, encode_int_roundtrip (-300) (by decide) (by decide)⟩

/-! ## C8: fixed-width script numbers -/

theorem vtiCore_cons (a : Nat) (l : List Nat) (h : l ≠ []) (sb shift acc : Nat) :
    vecToIntCore (a :: l) sb shift acc =
      vecToIntCore l sb (shift + 8) ((acc + a <<< (shift % 32)) % 2 ^ 32) := by
  cases l with
  | nil => exact absurd rfl h
  | cons b t => rfl

theorem vtiCore_zeros (k s sb : Nat) :
    ∀ shift acc, acc < 2 ^ 32 →
      vecToIntCore (List.replicate k 0 ++ [s]) sb shift acc =
        vecToIntCore [s] sb (shift + 8 * k) acc := by
  induction k with
  | zero => intro shift acc h; simp
  | succ k ih =>
    intro shift acc h
    rw [show List.replicate (k + 1) 0 ++ [s] = 0 :: (List.replicate k 0 ++ [s])
      by simp [List.replicate_succ]]
    rw [vtiCore_cons 0 _ (by simp) sb shift acc]
    have e : (acc + 0 <<< (shift % 32)) % 2 ^ 32 = acc := by
      rw [Nat.zero_shiftLeft]
      omega
    rw [e, ih (shift + 8) acc h]
    congr 1
    omega

/-- C8 counterexample: for the width `n = 4` (named by the claim as one of
the two forms used by the covenants), `encode_int_n(0, 4)` has 5 bytes, not
4: the claim `|encode_int_n(i, n)| = n` fails at `i = 0, n = 4`. -/
theorem encode_int_n_width4_counterexample :
    ¬ (encodeIntN 0 4).length = 4 := by
  decide

/-- C8 (amended): for every `i32` value `i` and every width `n ≥ 5`,
`encode_int_n(i, n)` has exactly `n` bytes and `vec_to_int` maps it back to
`i`.  Widths `n ≤ 4` (including the width-4 form the claim names) are not
valid: the result then has 5 bytes.  The 8-byte form matches the nonce slot
used by the ascending-nonce covenant. -/
theorem encode_int_n_fixed_width_roundtrip (i : Int) (n : Nat)
    (hlo : -(2 ^ 31) ≤ i) (hhi : i < 2 ^ 31) (hn : 5 ≤ n) :
    (encodeIntN i n).length = n ∧ vecToInt (encodeIntN i n) = i := by
  have hm : i.natAbs % 2 ^ 32 = i.natAbs := Nat.mod_eq_of_lt (by omega)
  constructor
  · simp [encodeIntN, leBytes]
    omega
  · unfold encodeIntN
    rw [hm]
    simp only [leBytes]
    set m := i.natAbs with hmdef
    have hmle : m ≤ 2 ^ 31 := by omega
    set s : Nat := if i < 0 then 0x80 else 0 with hsdef
    unfold vecToInt
    rw [show ([m % 256, m / 256 % 256, m / 256 / 256 % 256,
        m / 256 / 256 / 256 % 256] ++ List.replicate (n - 1 - 4) 0 ++ [s])
        = (([m % 256, m / 256 % 256, m / 256 / 256 % 256,
            m / 256 / 256 / 256 % 256] ++ List.replicate (n - 1 - 4) 0) ++ [s])
      from by simp]
    rw [List.getLast?_concat]
    simp only
    rw [show (([m % 256, m / 256 % 256, m / 256 / 256 % 256,
            m / 256 / 256 / 256 % 256] ++ List.replicate (n - 1 - 4) 0) ++ [s])
        = m % 256 :: (m / 256 % 256 :: (m / 256 / 256 % 256 ::
            (m / 256 / 256 / 256 % 256 :: (List.replicate (n - 1 - 4) 0 ++ [s]))))
      from by simp]
    have hne : List.replicate (n - 1 - 4) 0 ++ [s] ≠ [] := by simp
    rw [vtiCore_cons _ _ (by simp) _ _ _, vtiCore_cons _ _ (by simp) _ _ _,
      vtiCore_cons _ _ (by simp) _ _ _, vtiCore_cons _ _ hne _ _ _]
    have hacc : (((((0 + (m % 256) <<< (0 % 32)) % 2 ^ 32
        + (m / 256 % 256) <<< ((0 + 8) % 32)) % 2 ^ 32
        + (m / 256 / 256 % 256) <<< ((0 + 8 + 8) % 32)) % 2 ^ 32
        + (m / 256 / 256 / 256 % 256) <<< ((0 + 8 + 8 + 8) % 32)) % 2 ^ 32) = m := by
      simp only [Nat.shiftLeft_eq]
      norm_num
      omega
    rw [hacc, vtiCore_zeros _ _ _ _ _ (by omega)]
    by_cases hneg : i < 0
    · rw [hsdef, if_pos hneg]
      have h1 : 1 ≤ m := by omega
      simp only [vecToIntCore]
      rw [if_pos (by decide)]
      rw [show (128 : Nat) ^^^ 128 &&& 128 = 0 from by decide, Nat.zero_shiftLeft,
        Nat.add_zero, Nat.mod_eq_of_lt (by omega), Nat.mod_eq_of_lt (by omega)]
      rw [toSigned32_large _ (by omega) (by omega)]
      push_cast
      omega
    · rw [hsdef, if_neg hneg]
      simp only [vecToIntCore]
      rw [show (0 : Nat) &&& 128 = 0 from by decide]
      rw [if_neg (by simp), Nat.zero_shiftLeft, Nat.add_zero,
        Nat.mod_eq_of_lt (by omega)]
      rw [toSigned32_small _ (by omega)]
      omega

/-- Witness for C8's amended theorem at `i = -7, n = 8` (the covenants'
8-byte nonce form). -/
theorem encode_int_n_fixed_width_roundtrip_witness :
    (-(2 ^ 31) ≤ (-7 : Int) ∧ (-7 : Int) < 2 ^ 31 ∧ 5 ≤ 8) ∧
      ((encodeIntN (-7) 8).length = 8 ∧ vecToInt (encodeIntN (-7) 8) = -7) :=
  ⟨by decide, encode_int_n_fixed_width_roundtrip (-7) 8 (by decide) (by decide)
    (by decide)⟩

/-! ## C5: parse-then-serialize round trip -/

/-- C5: for every byte string `b` accepted by `Script::from_serialized`,
`to_vec()` on the resulting script yields exactly `b` (the parsed script
caches its wire bytes and `to_vec` returns the cache verbatim). -/
theorem from_serialized_to_vec_roundtrip (b : List Nat) (s : Script)
    (h : Script.fromSerialized b = some s) : s.toVec = some b := by
  unfold Script.fromSerialized at h
  cases hc : fromSerializedCore b.length b 0 true with
  | none => rw [hc] at h; exact absurd h (by simp)
  | some r =>
    rw [hc] at h
    have h2 : (⟨r.1, some b, true, r.2⟩ : Script) = s := Option.some.inj h
    rw [← h2]
    rfl

/-- Witness for C5's theorem on a P2PKH locking script. -/
theorem from_serialized_to_vec_roundtrip_witness :
    Script.fromSerialized [0x76, 0xa9, 0x02, 0x11, 0x22, 0x88, 0xac]
        = some ⟨[Op.Code opDup, Op.Code opHash160, Op.Push [0x11, 0x22],
          Op.Code opEqualVerify, Op.Code opCheckSig],
          some [0x76, 0xa9, 0x02, 0x11, 0x22, 0x88, 0xac], true, false⟩ ∧
      Script.toVec ⟨[Op.Code opDup, Op.Code opHash160, Op.Push [0x11, 0x22],
          Op.Code opEqualVerify, Op.Code opCheckSig],
          some [0x76, 0xa9, 0x02, 0x11, 0x22, 0x88, 0xac], true, false⟩
        = some [0x76, 0xa9, 0x02, 0x11, 0x22, 0x88, 0xac] :=
  ⟨by decide, from_serialized_to_vec_roundtrip _ _ (by decide)⟩

/-! ## C4: PUSHDATA decoding -/

/-- C4: evaluation of `Script::from_serialized` at the failing input
`[0x4c, 0x01, 0xaa]` (a PUSHDATA1 push of the single byte `0xaa`).  The
parser returns `Push [0x01]` — the payload is taken starting at the length
field, not after it — where the claim (and the writer `Op::write_to_stream`)
require `Push [0xaa]`.  The second conjunct shows the other half of the
claim holding: the undefined opcode byte `0xbd` decodes to
`OP_INVALIDOPCODE` (`0xff`) without failing the parse. -/
theorem from_serialized_pushdata_bug :
    (Script.fromSerialized [0x4c, 0x01, 0xaa]).map Script.ops
        = some [Op.Push [0x01]] ∧
      (Op.writeToStream (Op.Push [0xaa]) true ≠ some [0x4c, 0x01, 0xaa]
        ∧ Op.writeToStream (Op.Push (List.replicate 0x50 0x77)) true
          = some (0x4c :: 0x50 :: List.replicate 0x50 0x77)
        ∧ (Script.fromSerialized (0x4c :: 0x50 :: List.replicate 0x50 0x77)).map
            Script.ops
          = some [Op.Push (0x50 :: List.replicate 0x4f 0x77)]) ∧
      (Script.fromSerialized [0xbd]).map Script.ops = some [Op.Code 0xff] := by
  refine ⟨by decide, ⟨by decide, by decide, by decide⟩, by decide⟩

/-! ## C6: the sig-script form -/

theorem revHelper (m : List Op) :
    (match (m.findIdx? (fun op => op = Op.Code opCodeSeparator)).map
        (fun r => m.reverse.length - 1 - r) with
      | none => m.reverse
      | some pos => m.reverse.drop (pos + 1))
    = (m.takeWhile (fun op => op ≠ Op.Code opCodeSeparator)).reverse := by
  induction m with
  | nil => rfl
  | cons a m ih =>
    rw [List.findIdx?_cons]
    by_cases ha : a = Op.Code opCodeSeparator
    · rw [if_pos (by simp [ha])]
      simp only [Option.map]
      show (a :: m).reverse.drop ((a :: m).reverse.length - 1 - 0 + 1) = _
      have h1 : (a :: m).reverse.length = m.length + 1 := by simp
      rw [h1]
      have h2 : (a :: m).reverse.drop (m.length + 1 - 1 - 0 + 1) = [] := by
        apply List.drop_eq_nil_of_le
        simp
      rw [h2, List.takeWhile_cons]
      rw [show (decide (a ≠ Op.Code opCodeSeparator)) = false by simp [ha]]
      rfl
    · rw [if_neg (by simp [ha])]
      rw [List.findIdx?_succ, List.takeWhile_cons]
      rw [show (decide (a ≠ Op.Code opCodeSeparator)) = true by simp [ha]]
      simp only [if_true]
      cases hfi : m.findIdx? (fun op => decide (op = Op.Code opCodeSeparator)) with
      | none =>
        rw [hfi] at ih
        simp only [Option.map] at ih ⊢
        simp only [List.reverse_cons]
        rw [← ih]
      | some r =>
        rw [hfi] at ih
        simp only [Option.map] at ih ⊢
        have hr : r < m.length := by
          have hfd := (List.findIdx?_eq_some_iff_findIdx_eq).mp hfi
          exact hfd.1
        show ((a :: m).reverse).drop ((a :: m).reverse.length - 1 - (r + 1) + 1) = _
        have h1 : (a :: m).reverse.length = m.length + 1 := by simp
        rw [h1, List.reverse_cons]
        have hcount : m.length + 1 - 1 - (r + 1) + 1 = m.length - r := by omega
        rw [hcount]
        rw [List.drop_append_of_le_length
          (show m.length - r ≤ m.reverse.length
            by simp only [List.length_reverse]; omega)]
        rw [List.reverse_cons]
        congr 1
        have hcount2 : m.reverse.length - 1 - r + 1 = m.length - r := by
          simp only [List.length_reverse]
          omega
        rw [← hcount2]
        exact ih

/-- The index-skipping loop of `to_vec_sig` keeps exactly the ops strictly
after the rightmost `OP_CODESEPARATOR`. -/
theorem keptOps_eq (ops : List Op) :
    (match lastSepIdx ops with
      | none => ops
      | some pos => ops.drop (pos + 1)) = afterLastSepOps ops := by
  have h := revHelper ops.reverse
  simp only [List.reverse_reverse] at h
  unfold lastSepIdx afterLastSepOps
  exact h

/-- C6 counterexample: the claim quantifies over every `Script`, including
parsed ones.  Parsing `[0x01, 0x05]` (a direct push of the byte `0x05`)
yields a script with no `OP_CODESEPARATOR` whose `to_vec_sig`
(`[0x55]`, the minimal-push re-serialization) differs from `to_vec`
(the cached `[0x01, 0x05]`). -/
theorem to_vec_sig_cached_counterexample :
    ¬ ∀ (b : List Nat) (s : Script), Script.fromSerialized b = some s →
        (∀ op ∈ s.ops, op ≠ Op.Code opCodeSeparator) →
        s.toVecSig = s.toVec := by
  intro h
  have h2 := h [0x01, 0x05] ⟨[Op.Push [0x05]], some [0x01, 0x05], true, true⟩
    (by decide) (by decide)
  exact absurd h2 (by decide)

/-- C6 (amended): for every `Script`, `to_vec_sig` equals the serialization
of exactly the ops strictly after the rightmost `OP_CODESEPARATOR` (all of
them when none is present); and it equals `to_vec` when the script has no
cached wire bytes (was built from ops, not parsed) and contains no
`OP_CODESEPARATOR`.  For parsed scripts the two can differ, since `to_vec`
returns the cache verbatim. -/
theorem to_vec_sig_char (s : Script) :
    s.toVecSig = ((afterLastSepOps s.ops).mapM
        (fun (op : Op) => op.writeToStream s.is_minimal_push)).map List.flatten ∧
      (s.serialized = none →
        (∀ op ∈ s.ops, op ≠ Op.Code opCodeSeparator) → s.toVecSig = s.toVec) := by
  constructor
  · unfold Script.toVecSig
    rw [keptOps_eq]
  · intro hser hnosep
    unfold Script.toVecSig Script.toVec
    rw [hser]
    have hnone : lastSepIdx s.ops = none := by
      unfold lastSepIdx
      have hfind : s.ops.reverse.findIdx? (fun op => op = Op.Code opCodeSeparator)
          = none := by
        rw [List.findIdx?_eq_none_iff]
        intro x hx
        simp only [List.mem_reverse] at hx
        simp [hnosep x hx]
      rw [hfind]
      rfl
    rw [hnone]

/-- Witness for C6's amended theorem on a two-op script built from ops. -/
theorem to_vec_sig_char_witness :
    ((Script.new [Op.Push [0x05], Op.Code opDup]).serialized = none ∧
      ∀ op ∈ (Script.new [Op.Push [0x05], Op.Code opDup]).ops,
        op ≠ Op.Code opCodeSeparator) ∧
    (Script.new [Op.Push [0x05], Op.Code opDup]).toVecSig
      = (Script.new [Op.Push [0x05], Op.Code opDup]).toVec :=
  ⟨⟨rfl, by decide⟩,
    (to_vec_sig_char (Script.new [Op.Push [0x05], Op.Code opDup])).2 rfl
      (by decide)⟩

/-! ## C7 and C2: change insertion -/

/-- C7: whenever `insert_leftover_output` returns the shortfall error or the
no-change signal, the outputs list (the placeholder removed again) and the
inputs list are exactly what they were before the call. -/
theorem insert_leftover_preserves (utx : UnsignedTx) (idx : Nat)
    (addr : Address) (feePerKb dustLimit : Nat) (utx' : UnsignedTx)
    (r : LeftoverResult)
    (h : insertLeftoverOutput utx idx addr feePerKb dustLimit = some (utx', r))
    (hr : (∃ d, r = .err d) ∨ r = .ok none) :
    utx'.outputs = utx.outputs ∧ utx'.inputs = utx.inputs := by
  unfold insertLeftoverOutput at h
  cases he0 : estimateSize utx with
  | none => rw [he0] at h; exact absurd h (by simp)
  | some s0 =>
    rw [he0] at h
    dsimp only at h
    by_cases hidx : idx > utx.outputs.length
    · rw [if_pos hidx] at h; exact absurd h (by simp)
    · rw [if_neg hidx] at h
      split at h
      · exact absurd h (by simp)
      · split_ifs at h with hb1 hb2
        · have hp := Option.some.inj h
          have hu : utx' = { utx with outputs :=
              (List.insertIdx idx
                ⟨0xffffffffffffffff, p2pkhScript addr⟩ utx.outputs).eraseIdx idx } :=
            (congrArg Prod.fst hp).symm
          rw [hu]
          constructor
          · show (List.insertIdx idx _ utx.outputs).eraseIdx idx = utx.outputs
            exact List.eraseIdx_insertIdx idx utx.outputs
          · rfl
        · have hp := Option.some.inj h
          have hu : utx' = { utx with outputs :=
              (List.insertIdx idx
                ⟨0xffffffffffffffff, p2pkhScript addr⟩ utx.outputs).eraseIdx idx } :=
            (congrArg Prod.fst hp).symm
          rw [hu]
          constructor
          · show (List.insertIdx idx _ utx.outputs).eraseIdx idx = utx.outputs
            exact List.eraseIdx_insertIdx idx utx.outputs
          · rfl
        · have hrr : r = .ok (some idx) :=
            (congrArg Prod.snd (Option.some.inj h)).symm
          rcases hr with ⟨d, hd⟩ | hd <;> rw [hd] at hrr <;>
            exact absurd hrr (by simp)

/-- Witness for C7's theorem: a transaction whose single 25000-unit output
exceeds its 20000 units of inputs; change insertion returns the shortfall
error and leaves the outputs and inputs untouched. -/
theorem insert_leftover_preserves_witness :
    (insertLeftoverOutput exUtxPoor 1 exAddr 1000 546
        = some (exUtxPoor, .err 5229) ∧
      ((∃ d, (LeftoverResult.err 5229) = LeftoverResult.err d) ∨
        (LeftoverResult.err 5229) = .ok none)) ∧
    (exUtxPoor.outputs = exUtxPoor.outputs ∧
      exUtxPoor.inputs = exUtxPoor.inputs) :=
  ⟨⟨rfl, Or.inl ⟨5229, rfl⟩⟩,
    insert_leftover_preserves exUtxPoor 1 exAddr 1000 546 exUtxPoor
      (.err 5229) rfl (Or.inl ⟨5229, rfl⟩)⟩

theorem sum64_eq (l : List Nat) : sum64 l = l.sum % 2 ^ 64 := by
  have aux : ∀ (xs : List Nat) (acc : Nat), acc < 2 ^ 64 →
      List.foldl (fun a b => (a + b) % 2 ^ 64) acc xs = (acc + xs.sum) % 2 ^ 64 := by
    intro xs
    induction xs with
    | nil =>
      intro acc h
      simp only [List.foldl_nil, List.sum_nil, Nat.add_zero]
      omega
    | cons x xs ih =>
      intro acc h
      simp only [List.foldl_cons, List.sum_cons]
      rw [ih _ (Nat.mod_lt _ (by norm_num))]
      conv_rhs => rw [show acc + (x + xs.sum) = acc + x + xs.sum by omega]
      rw [Nat.mod_add_mod]
  unfold sum64
  rw [aux l 0 (by norm_num)]
  simp

theorem set_insertIdx (l : List TxOutput) (idx : Nat) (h : idx ≤ l.length)
    (a b : TxOutput) :
    (List.insertIdx idx a l).set idx b = List.insertIdx idx b l := by
  induction l generalizing idx with
  | nil =>
    have h0 : idx = 0 := by simpa using h
    subst h0
    rfl
  | cons hd tl ih =>
    cases idx with
    | zero => rfl
    | succ n =>
      simp only [List.insertIdx_succ_cons, List.set_cons_succ]
      rw [ih n (by simpa using h)]

/-- C2: `insert_leftover_output` follows the three-case algorithm of the
claim.  `s0` and `s1` are the size estimates without and with the
placeholder output; the overflow side conditions make the wrapping `u64`
arithmetic of the code coincide with the claim's plain arithmetic, and
`s0 ≤ s1` (the placeholder only enlarges the transaction) orients the
shortfall subtraction. -/
theorem insert_leftover_output_spec
    (utx : UnsignedTx) (idx : Nat) (addr : Address) (feePerKb dustLimit : Nat)
    (s0 s1 : Nat)
    (h0 : estimateSize utx = some s0)
    (h1 : estimateSize
        { utx with
          outputs := List.insertIdx idx
            (TxOutput.mk 0xffffffffffffffff (p2pkhScript addr)) utx.outputs }
      = some s1)
    (hidx : idx ≤ utx.outputs.length)
    (hs1 : s1 < 2 ^ 64)
    (hs01 : s0 ≤ s1)
    (hfee : s1 * feePerKb < 2 ^ 64)
    (hout : outputTotal utx + s1 * feePerKb / 1000 < 2 ^ 64)
    (hin : inputTotal utx < 2 ^ 64) :
    (outputTotal utx + s0 * feePerKb / 1000 > inputTotal utx →
      insertLeftoverOutput utx idx addr feePerKb dustLimit
        = some (utx, .err (outputTotal utx + s1 * feePerKb / 1000
            - inputTotal utx))) ∧
    (outputTotal utx + s0 * feePerKb / 1000 ≤ inputTotal utx →
      inputTotal utx - (outputTotal utx + s0 * feePerKb / 1000) < dustLimit →
      insertLeftoverOutput utx idx addr feePerKb dustLimit
        = some (utx, .ok none)) ∧
    (outputTotal utx + s0 * feePerKb / 1000 ≤ inputTotal utx →
      dustLimit ≤ inputTotal utx - (outputTotal utx + s0 * feePerKb / 1000) →
      outputTotal utx + s1 * feePerKb / 1000 ≤ inputTotal utx →
      insertLeftoverOutput utx idx addr feePerKb dustLimit
        = some ({ utx with
            outputs := List.insertIdx idx
              (TxOutput.mk
                (inputTotal utx - (outputTotal utx + s1 * feePerKb / 1000))
                (p2pkhScript addr)) utx.outputs }, .ok (some idx))) := by
  have hfee0 : s0 * feePerKb < 2 ^ 64 :=
    Nat.lt_of_le_of_lt (Nat.mul_le_mul_right _ hs01) hfee
  have hfw : s0 * feePerKb / 1000 ≤ s1 * feePerKb / 1000 :=
    Nat.div_le_div_right (Nat.mul_le_mul_right _ hs01)
  have eOut : sum64 (utx.outputs.map TxOutput.value) = outputTotal utx := by
    rw [sum64_eq]
    exact Nat.mod_eq_of_lt (by unfold outputTotal at hout; omega)
  have eIn : sum64 (utx.inputs.map (fun inp => inp.output.value))
      = inputTotal utx := by
    rw [sum64_eq]
    exact Nat.mod_eq_of_lt hin
  have eFee : s1 % 2 ^ 64 * feePerKb % 2 ^ 64 / 1000 = s1 * feePerKb / 1000 := by
    rw [Nat.mod_eq_of_lt hs1, Nat.mod_eq_of_lt hfee]
  have eFee0 : s0 % 2 ^ 64 * feePerKb % 2 ^ 64 / 1000 = s0 * feePerKb / 1000 := by
    rw [Nat.mod_eq_of_lt (show s0 < 2 ^ 64 by omega), Nat.mod_eq_of_lt hfee0]
  have hred : insertLeftoverOutput utx idx addr feePerKb dustLimit =
      (if (outputTotal utx + s0 * feePerKb / 1000) % 2 ^ 64 > inputTotal utx then
        some (utx, .err (((outputTotal utx + s1 * feePerKb / 1000) % 2 ^ 64
          + (2 ^ 64 - inputTotal utx)) % 2 ^ 64))
      else if inputTotal utx
          - (outputTotal utx + s0 * feePerKb / 1000) % 2 ^ 64 < dustLimit then
        some (utx, .ok none)
      else
        some ({ utx with
            outputs := List.insertIdx idx
              (TxOutput.mk
                ((inputTotal utx + (2 ^ 64
                  - (outputTotal utx + s1 * feePerKb / 1000) % 2 ^ 64)) % 2 ^ 64)
                (p2pkhScript addr)) utx.outputs }, .ok (some idx))) := by
    unfold insertLeftoverOutput
    rw [h0]
    dsimp only
    rw [if_neg (by omega), h1]
    dsimp only
    rw [eOut, eIn, eFee, eFee0, List.eraseIdx_insertIdx,
      set_insertIdx _ _ hidx]
  refine ⟨fun hgt => ?_, fun hle hdust => ?_, fun hle hdust hspent => ?_⟩
  · rw [hred, if_pos (by omega)]
    have hv : ((outputTotal utx + s1 * feePerKb / 1000) % 2 ^ 64
        + (2 ^ 64 - inputTotal utx)) % 2 ^ 64
        = outputTotal utx + s1 * feePerKb / 1000 - inputTotal utx := by
      rw [Nat.mod_eq_of_lt hout]
      rw [show outputTotal utx + s1 * feePerKb / 1000 + (2 ^ 64 - inputTotal utx)
        = (outputTotal utx + s1 * feePerKb / 1000 - inputTotal utx) + 2 ^ 64
        by omega]
      rw [Nat.add_mod_right, Nat.mod_eq_of_lt (by omega)]
    rw [hv]
  · rw [hred, if_neg (by omega),
      if_pos (by rw [Nat.mod_eq_of_lt (by omega)]; omega)]
  · rw [hred, if_neg (by omega),
      if_neg (by rw [Nat.mod_eq_of_lt (by omega)]; omega)]
    have hv : (inputTotal utx + (2 ^ 64
        - (outputTotal utx + s1 * feePerKb / 1000) % 2 ^ 64)) % 2 ^ 64
        = inputTotal utx - (outputTotal utx + s1 * feePerKb / 1000) := by
      rw [Nat.mod_eq_of_lt hout]
      rw [show inputTotal utx + (2 ^ 64 - (outputTotal utx + s1 * feePerKb / 1000))
        = (inputTotal utx - (outputTotal utx + s1 * feePerKb / 1000)) + 2 ^ 64
        by omega]
      rw [Nat.add_mod_right, Nat.mod_eq_of_lt (by omega)]
    rw [hv]

/-- Witness for C2's theorem: the 20000-in / 15000-out transaction takes
the change branch; sizes are 195 without and 229 with the placeholder, so
the change output at index 1 carries `20000 - 15000 - 229 = 4771`. -/
theorem insert_leftover_output_spec_witness :
    (estimateSize exUtx = some 195 ∧
      estimateSize
        { exUtx with
          outputs := List.insertIdx 1
            (TxOutput.mk 0xffffffffffffffff (p2pkhScript exAddr)) exUtx.outputs }
        = some 229 ∧
      1 ≤ exUtx.outputs.length ∧ (195 : Nat) ≤ 229 ∧
      outputTotal exUtx + 229 * 1000 / 1000 ≤ inputTotal exUtx ∧
      (546 : Nat) ≤ inputTotal exUtx - (outputTotal exUtx + 195 * 1000 / 1000)) ∧
    insertLeftoverOutput exUtx 1 exAddr 1000 546
      = some ({ exUtx with
          outputs := List.insertIdx 1
            (TxOutput.mk
              (inputTotal exUtx - (outputTotal exUtx + 229 * 1000 / 1000))
              (p2pkhScript exAddr)) exUtx.outputs }, .ok (some 1)) :=
  ⟨⟨by decide, by decide, by decide, by decide, by decide, by decide⟩,
    (insert_leftover_output_spec exUtx 1 exAddr 1000 546 195 229 (by decide)
      (by decide) (by decide) (by decide) (by decide) (by decide) (by decide)
      (by decide)).2.2 (by decide) (by decide) (by decide)⟩

/-! ## C3 and C10: ascending-nonce witness construction -/

/-- `write_to_stream_flags` with the `script_code` field deselected never
fails. -/
theorem writeFlags_eval (p : PreImage) (f : PreImageWriteFlags)
    (hf : f.script_code = false) :
    p.writeToStreamFlags f
      = some ((if f.version then i32LE p.version else [])
        ++ (if f.hash_prevouts then p.hash_prevouts else [])
        ++ (if f.hash_sequence then p.hash_sequence else [])
        ++ (if f.outpoint then p.outpoint.tx_hash ++ u32LE p.outpoint.vout else [])
        ++ []
        ++ (if f.value then u64LE p.value else [])
        ++ (if f.sequence then u32LE p.sequence else [])
        ++ (if f.hash_outputs then p.hash_outputs else [])
        ++ (if f.lock_time then u32LE p.lock_time else [])
        ++ (if f.sighash_type then u32LE p.sighash_type else [])) := by
  unfold PreImage.writeToStreamFlags
  rw [hf]
  rfl

/-- C3 counterexample: with `old_nonce = 5` and a `NonceRedeem` whose
`new_nonce` is also `5` (so `new_nonce ≥ old_nonce`), `sig_script` still
produces a witness script: construction is not rejected. -/
theorem p2an_nonce_not_rejected_counterexample :
    exPanEq.spend_params
        = some (P2ANSpendParams.NonceRedeem 30000 5 [0xcd] false) ∧
      exPanEq.old_nonce = 5 ∧
      p2anSigScript exPanEq [0xde, 0x41] (List.replicate 33 2) exPim exOuts
        ≠ none := by
  refine ⟨rfl, rfl, ?_⟩
  decide

/-- C3 (amended): `sig_script` performs no construction-time rejection.
For a redeem whose `new_nonce` is not below `old_nonce` it still returns a
witness script (the ordering `new_nonce < old_nonce` is enforced only by
the locking script's `OP_LESSTHAN`/`OP_VERIFY` at spend time), and a
refill carries no nonce of its own: its witness always pushes
`encode_int(old_nonce)` in the new-nonce slot, so a "refill with a
different nonce" cannot even be constructed. -/
theorem p2an_no_construction_rejection
    (o : P2AscendingNonce) (sig pk : List Nat) (pim : PreImage)
    (outputs : List TxOutput)
    (hsig : sig ≠ [])
    (hval : o.old_value < 2 ^ 31)
    (sc : List Nat)
    (hsc : (Script.new (p2anOps o)).toVecSig = some sc)
    (hsclen : 43 ≤ sc.length)
    (obs : List Nat)
    (hobs : ((outputs.drop 1).mapM TxOutput.writeToStream).map List.flatten
      = some obs)
    (houts : 1 ≤ outputs.length) :
    (∀ p n s, o.spend_params = some (.NonceRedeem p n s false) →
      o.old_nonce ≤ n →
      ∃ w, p2anSigScript o sig pk pim outputs = some w) ∧
    (∀ p, o.spend_params = some (.NonceRefill p) →
      ∃ w, p2anSigScript o sig pk pim outputs = some w ∧
        w.ops.getD 11 (Op.Push []) = Op.Push (encodeInt o.old_nonce)) := by
  constructor
  · intro p n s hp hge
    unfold p2anSigScript
    rw [hp]
    dsimp only
    unfold p2anWitness
    rw [if_neg hsig, hsc]
    dsimp only
    rw [show (if false = true then (0 : Nat) else 1) = 1 from rfl]
    rw [if_neg (by omega : ¬ 1 > outputs.length), hobs]
    dsimp only
    rw [writeFlags_eval pim headFlags rfl]
    dsimp only
    rw [if_neg (by omega : ¬ sc.length < 9)]
    rw [writeFlags_eval pim tailFlags rfl]
    dsimp only
    rw [if_neg (by omega : ¬ o.old_value ≥ 2 ^ 31),
      if_neg (by omega : ¬ sc.length < 9 + 34)]
    exact ⟨_, rfl⟩
  · intro p hp
    unfold p2anSigScript
    rw [hp]
    dsimp only
    unfold p2anWitness
    rw [if_neg hsig, hsc]
    dsimp only
    rw [show (if false = true then (0 : Nat) else 1) = 1 from rfl]
    rw [if_neg (by omega : ¬ 1 > outputs.length), hobs]
    dsimp only
    rw [writeFlags_eval pim headFlags rfl]
    dsimp only
    rw [if_neg (by omega : ¬ sc.length < 9)]
    rw [writeFlags_eval pim tailFlags rfl]
    dsimp only
    rw [if_neg (by omega : ¬ o.old_value ≥ 2 ^ 31),
      if_neg (by omega : ¬ sc.length < 9 + 34)]
    exact ⟨_, rfl, rfl⟩

/-- Witness for C3's amended theorem at the boundary redeem
(`new_nonce = old_nonce = 5`). -/
theorem p2an_no_construction_rejection_witness :
    (([0xde, 0x41] : List Nat) ≠ [] ∧ exPanEq.old_value < 2 ^ 31 ∧
      (Script.new (p2anOps exPanEq)).toVecSig = some exPanSc ∧
      43 ≤ exPanSc.length ∧
      ((exOuts.drop 1).mapM TxOutput.writeToStream).map List.flatten
        = some exPanObs ∧
      1 ≤ exOuts.length ∧ exPanEq.old_nonce ≤ 5) ∧
    (∃ w, p2anSigScript exPanEq [0xde, 0x41] (List.replicate 33 2) exPim exOuts
      = some w) :=
  ⟨⟨by decide, by decide, by decide, by decide, by decide, by decide, by decide⟩,
    (p2an_no_construction_rejection exPanEq [0xde, 0x41] (List.replicate 33 2)
      exPim exOuts (by decide) (by decide) exPanSc (by decide) (by decide)
      exPanObs (by decide) (by decide)).1 30000 5 [0xcd] rfl (by decide)⟩

/-- C10: for every ascending-nonce output whose `old_value` exceeds
`2^31 - 1`, redeem and refill witness construction aborts: the `u64` value
is converted to an `i32` script number with `try_into().unwrap()`, so
`sig_script` panics (returns no script). -/
theorem p2an_old_value_abort
    (o : P2AscendingNonce) (sig pk : List Nat) (pim : PreImage)
    (outputs : List TxOutput)
    (hval : 2 ^ 31 - 1 < o.old_value)
    (hparams : (∃ p n s t, o.spend_params = some (.NonceRedeem p n s t)) ∨
      ∃ p, o.spend_params = some (.NonceRefill p)) :
    p2anSigScript o sig pk pim outputs = none := by
  have hwit : ∀ (p n : Int) (s : List Nat) (t : Bool),
      p2anWitness o sig pk pim outputs p n s t = none := by
    intro p n s t
    unfold p2anWitness
    repeat' first
      | split
      | (dsimp only)
    all_goals first | rfl | omega
  unfold p2anSigScript
  rcases hparams with ⟨p, n, s, t, hp⟩ | ⟨p, hp⟩ <;> rw [hp] <;> dsimp only <;>
    apply hwit

/-- Witness for C10's theorem at `old_value = 2^31`. -/
theorem p2an_old_value_abort_witness :
    (2 ^ 31 - 1 < (2147483648 : Nat) ∧
      ({ exPanEq with old_value := 2147483648 } : P2AscendingNonce).spend_params
        = some (P2ANSpendParams.NonceRedeem 30000 5 [0xcd] false)) ∧
    p2anSigScript { exPanEq with old_value := 2147483648 } [0xde, 0x41]
      (List.replicate 33 2) exPim exOuts = none :=
  ⟨⟨by decide, rfl⟩,
    p2an_old_value_abort { exPanEq with old_value := 2147483648 } [0xde, 0x41]
      (List.replicate 33 2) exPim exOuts (by decide)
      (Or.inl ⟨30000, 5, [0xcd], false, rfl⟩)⟩

/-! ## C1: trade-offer accept witness -/

/-- The code-side slice `outputs[a .. len - adj]` equals the claim's "up to
one before the last output when a fee address is set, to the end
otherwise". -/
theorem slice_eq_claim (l : List TxOutput) (a : Nat) (isFee : Bool) :
    (l.drop a).take (l.length - (if isFee then 1 else 0) - a)
      = (if isFee then l.dropLast else l).drop a := by
  cases isFee
  · show (l.drop a).take (l.length - 0 - a) = l.drop a
    rw [Nat.sub_zero,
      show l.length - a = (l.drop a).length from (List.length_drop a l).symm]
    exact List.take_length _
  · show (l.drop a).take (l.length - 1 - a) = l.dropLast.drop a
    rw [List.dropLast_eq_take, List.drop_take]

/-- Structure of the accept branch of `AdvancedTradeOffer::sig_script` for
an arbitrary buy amount and full/partial flag. -/
theorem atoAcceptWitness_eq
    (o : AdvancedTradeOffer) (sig pk : List Nat) (pim : PreImage)
    (outputs : List TxOutput) (buyAmount : Nat) (isFull : Bool)
    (ops : List Op) (sc obs : List Nat)
    (hsig : sig ≠ [])
    (hops : atoOps o = some ops)
    (hsc : (Script.new ops).toVecSig = some sc)
    (hlen : (if o.fee_address.isSome then 1 else 0) + 3 ≤ outputs.length)
    (hobs : (((if o.fee_address.isSome then outputs.dropLast else outputs).drop
        (if isFull then 2 else 3)).mapM TxOutput.writeToStream).map List.flatten
      = some obs)
    (hbuy : buyAmount < 2 ^ 31) :
    atoAcceptWitness o sig pk pim outputs buyAmount isFull
      = some (Script.new (atoClaimPushes o sig pk pim sc obs buyAmount)) := by
  unfold atoClaimPushes
  unfold atoAcceptWitness
  rw [if_neg hsig, hops]
  dsimp only
  rw [hsc]
  dsimp only
  rw [writeFlags_eval pim headFlags rfl, writeFlags_eval pim middleFlags rfl,
    writeFlags_eval pim tailFlags rfl]
  dsimp only [headFlags, middleFlags, tailFlags]
  have ha3 : (if isFull = true then 2 else 3) ≤ 3 := by split <;> omega
  rw [if_neg (by omega : ¬ (if o.fee_address.isSome = true then 1 else 0)
    > outputs.length)]
  rw [if_neg (by omega : ¬ (if isFull = true then 2 else 3)
    > outputs.length - (if o.fee_address.isSome = true then 1 else 0))]
  rw [slice_eq_claim outputs _ o.fee_address.isSome]
  rw [hobs]
  dsimp only
  rw [toSigned32_small buyAmount hbuy]
  norm_num [List.append_assoc]
  rw [show encodeInt 1 = [1] from by decide]

/-- C1 counterexample: the claim's "index 3 for a partial accept" fails on
the boundary case: a spend with `AcceptPartially 20` on an offer whose
full-accept amount is `10 * 2 = 20` sets `is_accept_fully` and slices the
outputs from index 2, and the two slices serialize differently here. -/
theorem ato_partial_slice_counterexample :
    exAtoBoundary.spend_params = some (ATOSpendParams.AcceptPartially 20) ∧
      (atoSigScript exAtoBoundary [0xde, 0x41] [0x02] exPim exOuts).map
          (fun w => w.ops[11]?)
        = some (some (Op.Push exAtoObs2)) ∧
      exAtoObs2 ≠ exAtoObs3 :=
  ⟨rfl, by decide, by decide⟩

/-- C1 (amended): for an accepting spend, `sig_script` returns exactly the
14 pushes of the claim, with the outputs slice starting at index 2 for
`AcceptFully` AND for an `AcceptPartially` whose `buy_amount` equals the
full-accept amount (`is_accept_fully` is computed from the amount, not the
constructor), and at index 3 only for a strictly partial accept; the slice
ends one before the last output when `fee_address` is set, at the end
otherwise. -/
theorem ato_sig_script_structure
    (o : AdvancedTradeOffer) (sig pk : List Nat) (pim : PreImage)
    (outputs : List TxOutput) (ops : List Op) (sc obs2 obs3 : List Nat)
    (hsig : sig ≠ [])
    (hops : atoOps o = some ops)
    (hsc : (Script.new ops).toVecSig = some sc)
    (hlen : (if o.fee_address.isSome then 1 else 0) + 3 ≤ outputs.length)
    (hobs2 : (((if o.fee_address.isSome then outputs.dropLast else outputs).drop
        2).mapM TxOutput.writeToStream).map List.flatten = some obs2)
    (hobs3 : (((if o.fee_address.isSome then outputs.dropLast else outputs).drop
        3).mapM TxOutput.writeToStream).map List.flatten = some obs3) :
    (o.spend_params = some ATOSpendParams.AcceptFully →
      (if o.is_inverted then o.sell_amount_token
        else o.sell_amount_token * o.price % 2 ^ 64) < 2 ^ 31 →
      atoSigScript o sig pk pim outputs
        = some (Script.new (atoClaimPushes o sig pk pim sc obs2
            (if o.is_inverted then o.sell_amount_token
              else o.sell_amount_token * o.price % 2 ^ 64)))) ∧
    (∀ amt, o.spend_params = some (ATOSpendParams.AcceptPartially amt) →
      amt < 2 ^ 31 →
      (amt ≠ (if o.is_inverted then o.sell_amount_token
          else o.sell_amount_token * o.price % 2 ^ 64) →
        atoSigScript o sig pk pim outputs
          = some (Script.new (atoClaimPushes o sig pk pim sc obs3 amt))) ∧
      (amt = (if o.is_inverted then o.sell_amount_token
          else o.sell_amount_token * o.price % 2 ^ 64) →
        atoSigScript o sig pk pim outputs
          = some (Script.new (atoClaimPushes o sig pk pim sc obs2 amt)))) := by
  constructor
  · intro hp hfull
    unfold atoSigScript
    rw [hp]
    dsimp only
    exact atoAcceptWitness_eq o sig pk pim outputs _ true ops sc obs2 hsig hops
      hsc hlen hobs2 hfull
  · intro amt hp hlt
    constructor
    · intro hne
      unfold atoSigScript
      rw [hp]
      dsimp only
      rw [decide_eq_false hne]
      exact atoAcceptWitness_eq o sig pk pim outputs amt false ops sc obs3 hsig
        hops hsc hlen hobs3 hlt
    · intro heq
      unfold atoSigScript
      rw [hp]
      dsimp only
      rw [decide_eq_true heq]
      exact atoAcceptWitness_eq o sig pk pim outputs amt true ops sc obs2 hsig
        hops hsc hlen hobs2 hlt

/-- Witness for C1's amended theorem: a strictly partial accept
(`buy_amount = 6`, full amount `20`) produces the 14 pushes with the slice
starting at index 3. -/
theorem ato_sig_script_structure_witness :
    (([0xde, 0x41] : List Nat) ≠ [] ∧
      atoOps exAtoPartial = some exAtoOps ∧
      (Script.new exAtoOps).toVecSig = some exAtoSc ∧
      (if exAtoPartial.fee_address.isSome then 1 else 0) + 3 ≤ exOuts.length ∧
      (((if exAtoPartial.fee_address.isSome then exOuts.dropLast else exOuts).drop
        2).mapM TxOutput.writeToStream).map List.flatten = some exAtoObs2 ∧
      (((if exAtoPartial.fee_address.isSome then exOuts.dropLast else exOuts).drop
        3).mapM TxOutput.writeToStream).map List.flatten = some exAtoObs3 ∧
      exAtoPartial.spend_params = some (ATOSpendParams.AcceptPartially 6) ∧
      (6 : Nat) < 2 ^ 31) ∧
    atoSigScript exAtoPartial [0xde, 0x41] [0x02] exPim exOuts
      = some (Script.new
          (atoClaimPushes exAtoPartial [0xde, 0x41] [0x02] exPim exAtoSc
            exAtoObs3 6)) :=
  ⟨⟨by decide, by decide, by decide, by decide, by decide, by decide, rfl,
      by decide⟩,
    ((ato_sig_script_structure exAtoPartial [0xde, 0x41] [0x02] exPim exOuts
      exAtoOps exAtoSc exAtoObs2 exAtoObs3 (by decide) (by decide) (by decide)
      (by decide) (by decide) (by decide)).2 6 rfl (by decide)).1 (by decide)⟩

end CashSC
